import Mathlib

/-!
Verification development for the single-site crawler in src/main.py.

Strings are modelled as List Char. The URL helpers (urlparse, urlunparse,
urljoin) model the CPython urllib.parse functions the source calls, in the
ASCII fragment relevant to the crawler; the only failure mode of urlsplit
that is modelled is the case ValueError for a netloc whose square brackets
are unbalanced, raised by every CPython version. urlparse is split into a
total component function and a Boolean success predicate urlparseOk; a
Python call site that can raise is modelled with Except.
-/

/-- ASCII lower-casing of a single character, as Python str.lower does on
the ASCII range. -/
def pyLower (c : Char) : Char :=
  match c with
  | 'A' => 'a' | 'B' => 'b' | 'C' => 'c' | 'D' => 'd' | 'E' => 'e'
  | 'F' => 'f' | 'G' => 'g' | 'H' => 'h' | 'I' => 'i' | 'J' => 'j'
  | 'K' => 'k' | 'L' => 'l' | 'M' => 'm' | 'N' => 'n' | 'O' => 'o'
  | 'P' => 'p' | 'Q' => 'q' | 'R' => 'r' | 'S' => 's' | 'T' => 't'
  | 'U' => 'u' | 'V' => 'v' | 'W' => 'w' | 'X' => 'x' | 'Y' => 'y'
  | 'Z' => 'z'
  | c => c

/-- The characters allowed in a URL scheme, urllib.parse.scheme_chars. -/
def isSchemeChar (c : Char) : Bool :=
  c ∈ ("abcdefghijklmnopqrstuvwxyzABCDEFGHIJKLMNOPQRSTUVWXYZ0123456789+-.").toList

/-- ASCII letter test, matching url[0].isascii() and url[0].isalpha(). -/
def isPyAlpha (c : Char) : Bool :=
  c ∈ ("abcdefghijklmnopqrstuvwxyzABCDEFGHIJKLMNOPQRSTUVWXYZ").toList

/-- Whitespace for Python str.split() and str.strip(). -/
def pySpace (c : Char) : Bool :=
  c = ' ' ∨ c = '\t' ∨ c = '\n' ∨ c = '\x0b' ∨ c = '\x0c' ∨ c = '\r'

/-- Python str.split(sep) for a one-character separator: always returns a
non-empty list and keeps empty pieces. -/
def pySplitChar (sep : Char) : List Char → List (List Char)
  | [] => [[]]
  | c :: cs =>
    if c = sep then [] :: pySplitChar sep cs
    else
      match pySplitChar sep cs with
      | [] => [[c]]
      | p :: ps => (c :: p) :: ps

/-- Python str.strip(ch) for a one-character argument. -/
def pyStripChar (ch : Char) (l : List Char) : List Char :=
  ((l.dropWhile (fun c => c = ch)).reverse.dropWhile (fun c => c = ch)).reverse

/-- Python str.strip() with no argument (whitespace on both ends). -/
def pyStripWs (l : List Char) : List Char :=
  ((l.dropWhile pySpace).reverse.dropWhile pySpace).reverse

/-- posixpath.join of two components. -/
def pyJoin (a b : List Char) : List Char :=
  if b.head? = some '/' then b
  else if a = [] ∨ a.getLast? = some '/' then a ++ b
  else a ++ '/' :: b

/-- posixpath.join of a non-empty component list, folding pyJoin. -/
def pyJoinList (l : List (List Char)) : List Char :=
  match l with
  | [] => []
  | x :: xs => xs.foldl pyJoin x

/-- Errors the modelled Python fragments can raise. -/
inductive PyErr where
  | indexError : PyErr
  | valueError : PyErr
deriving DecidableEq

deriving instance DecidableEq for Except

/-- Result of urllib.parse.urlparse: the six URL components. -/
structure ParseResult where
  scheme : List Char
  netloc : List Char
  path : List Char
  params : List Char
  query : List Char
  fragment : List Char
deriving DecidableEq

/-- Leading C0-control-or-space strip plus removal of tab, CR and LF,
performed by urlsplit before parsing. -/
def cleanUrl (u : List Char) : List Char :=
  (u.dropWhile (fun c => c.toNat ≤ 32)).filter
    (fun c => ¬ (c = '\t' ∨ c = '\r' ∨ c = '\n'))

/-- The scheme-detection step of urlsplit: if the text before the first
colon is a well-formed scheme, split it off (lower-cased), otherwise keep
the default scheme d. -/
def schemeSplit (d u : List Char) : List Char × List Char :=
  let pre := u.takeWhile (fun c => c ≠ ':')
  match pre.head? with
  | none => (d, u)
  | some c =>
    if pre.length < u.length ∧ isPyAlpha c ∧ pre.all isSchemeChar then
      (pre.map pyLower, u.drop (pre.length + 1))
    else (d, u)

/-- Characters that end the netloc in _splitnetloc. -/
def delimsNetloc : List Char := ['/', '?', '#']

/-- urllib.parse._splitnetloc: if the remainder starts with two slashes,
the netloc is everything up to the next slash, question mark or hash. -/
def splitnetloc (u : List Char) : List Char × List Char :=
  if u.take 2 = ['/', '/'] then
    ((u.drop 2).takeWhile (fun c => ¬ c ∈ delimsNetloc),
     (u.drop 2).dropWhile (fun c => ¬ c ∈ delimsNetloc))
  else ([], u)

/-- str.split(sep, 1) when the separator is known to be present:
(text before the first sep, text after it). -/
def splitOnFirst (sep : Char) (u : List Char) : List Char × List Char :=
  (u.takeWhile (fun c => c ≠ sep), (u.dropWhile (fun c => c ≠ sep)).drop 1)

/-- urllib.parse._splitparams, called when a semicolon is present. -/
def splitparams (u : List Char) : List Char × List Char :=
  if '/' ∈ u then
    let fin := (u.reverse.takeWhile (fun c => c ≠ '/')).reverse
    if ';' ∈ fin then
      (u.take (u.length - fin.length) ++ fin.takeWhile (fun c => c ≠ ';'),
       (fin.dropWhile (fun c => c ≠ ';')).drop 1)
    else (u, [])
  else splitOnFirst ';' u

/-- urllib.parse.urlparse with default scheme d, as a total function on the
components (the bracket ValueError is tracked separately by urlparseOk). -/
def urlparse (u : List Char) (d : List Char) : ParseResult :=
  let d0 := (pyStripWs d).filter (fun c => ¬ (c = '\t' ∨ c = '\r' ∨ c = '\n'))
  let u0 := cleanUrl u
  let su := schemeSplit d0 u0
  let nu := splitnetloc su.2
  let f := if '#' ∈ nu.2 then splitOnFirst '#' nu.2 else (nu.2, [])
  let q := if '?' ∈ f.1 then splitOnFirst '?' f.1 else (f.1, [])
  let pp := if ';' ∈ q.1 then splitparams q.1 else (q.1, [])
  ⟨su.1, nu.1, pp.1, pp.2, q.2, f.2⟩

/-- True iff urlsplit does not raise the Invalid-IPv6-URL ValueError on u:
the netloc must contain either both square brackets or neither. -/
def urlparseOk (u : List Char) : Bool :=
  ((urlparse u []).netloc.contains '[') == ((urlparse u []).netloc.contains ']')

/-- urllib.parse.urlunparse (via urlunsplit), re-serializing components. -/
def urlunparse (p : ParseResult) : List Char :=
  let u1 := if p.params ≠ [] then p.path ++ ';' :: p.params else p.path
  let u2 :=
    if p.netloc ≠ [] ∨ u1.take 2 = ['/', '/'] then
      '/' :: '/' :: p.netloc ++
        (if u1 ≠ [] ∧ u1.head? ≠ some '/' then '/' :: u1 else u1)
    else u1
  let u3 := if p.scheme ≠ [] then p.scheme ++ ':' :: u2 else u2
  let u4 := if p.query ≠ [] then u3 ++ '?' :: p.query else u3
  if p.fragment ≠ [] then u4 ++ '#' :: p.fragment else u4

/-- urllib.parse.uses_relative. -/
def uses_relative : List (List Char) :=
  [[], ("ftp").toList, ("http").toList, ("gopher").toList, ("nntp").toList,
   ("imap").toList, ("wais").toList, ("file").toList, ("https").toList,
   ("shttp").toList, ("mms").toList, ("prospero").toList, ("rtsp").toList,
   ("rtspu").toList, ("sftp").toList, ("svn").toList, ("svn+ssh").toList,
   ("ws").toList, ("wss").toList]

/-- urllib.parse.uses_netloc. -/
def uses_netloc : List (List Char) :=
  [[], ("ftp").toList, ("http").toList, ("gopher").toList, ("nntp").toList,
   ("telnet").toList, ("imap").toList, ("wais").toList, ("file").toList,
   ("mms").toList, ("https").toList, ("shttp").toList, ("snews").toList,
   ("prospero").toList, ("rtsp").toList, ("rtspu").toList, ("rsync").toList,
   ("svn").toList, ("svn+ssh").toList, ("sftp").toList, ("nfs").toList,
   ("git").toList, ("git+ssh").toList, ("ws").toList, ("wss").toList,
   ("itms-services").toList]

/-- The middle-element filtering urljoin applies to merged path segments:
segments[1:-1] = filter(None, segments[1:-1]). -/
def filterMiddle (l : List (List Char)) : List (List Char) :=
  match l with
  | [] => []
  | [a] => [a]
  | a :: rest =>
    match rest.getLast? with
    | none => [a]
    | some last => a :: ((rest.dropLast).filter (fun s => s ≠ [])) ++ [last]

/-- urllib.parse.urljoin. Raises (models ValueError) iff parsing base or
url raises. -/
def urljoin (base url : List Char) : Except PyErr (List Char) :=
  if base = [] then .ok url
  else if url = [] then .ok base
  else if ¬ urlparseOk base then .error .valueError
  else
    let b := urlparse base []
    if ¬ urlparseOk url then .error .valueError
    else
      let l := urlparse url b.scheme
      if l.scheme ≠ b.scheme ∨ ¬ l.scheme ∈ uses_relative then .ok url
      else if l.scheme ∈ uses_netloc ∧ l.netloc ≠ [] then
        .ok (urlunparse ⟨l.scheme, l.netloc, l.path, l.params, l.query, l.fragment⟩)
      else
        let netloc := if l.scheme ∈ uses_netloc then b.netloc else l.netloc
        if l.path = [] ∧ l.params = [] then
          let query := if l.query = [] then b.query else l.query
          .ok (urlunparse ⟨l.scheme, netloc, b.path, b.params, query, l.fragment⟩)
        else
          let base_parts0 := pySplitChar '/' b.path
          let base_parts :=
            if base_parts0.getLast? = some [] then base_parts0
            else base_parts0.dropLast
          let segments :=
            if l.path.head? = some '/' then pySplitChar '/' l.path
            else filterMiddle (base_parts ++ pySplitChar '/' l.path)
          let resolved := segments.foldl
            (fun acc seg =>
              if seg = ['.', '.'] then acc.dropLast
              else if seg = ['.'] then acc
              else acc ++ [seg]) []
          let resolved :=
            if segments.getLast? = some ['.'] ∨ segments.getLast? = some ['.', '.']
            then resolved ++ [[]] else resolved
          .ok (urlunparse ⟨l.scheme, netloc, List.intercalate ['/'] resolved,
                           l.params, l.query, l.fragment⟩)

/-- main.py is_valid: parses the URL and tests the scheme. A ValueError
from urlparse propagates, hence the Except. -/
def is_valid (url : List Char) : Except PyErr Bool :=
  if ¬ urlparseOk url then .error .valueError
  else .ok ((urlparse url []).scheme ∈ [("http").toList, ("https").toList])

/-- main.py should_download: compares the parsed netloc with the fixed
base domain. A ValueError from urlparse propagates. -/
def should_download (url base_domain : List Char) : Except PyErr Bool :=
  if ¬ urlparseOk url then .error .valueError
  else .ok ((urlparse url []).netloc = base_domain)

/-- The URL-normalization done in the enqueue step of main.py crawl
(lines 177-180): parse, clear query and fragment, re-serialize. -/
def normalize_link (link : List Char) : Except PyErr (List Char) :=
  if ¬ urlparseOk link then .error .valueError
  else
    let p := urlparse link []
    .ok (urlunparse ⟨p.scheme, p.netloc, p.path, p.params, [], []⟩)

/-- The file path main.py save_resource derives from
(output_dir, domain, url); the function body uses only the URL. -/
def save_path (output_dir domain url : List Char) : List Char :=
  let path0 := (urlparse url []).path
  let path :=
    if path0 = [] ∨ path0.getLast? = some '/' then path0 ++ ("index.html").toList
    else path0
  let path_parts := pySplitChar '/' (pyStripChar '/' path)
  let dir_structure := pyJoinList (output_dir :: domain :: path_parts.dropLast)
  let filename :=
    match path_parts.getLast? with
    | some f => f
    | none => ("index.html").toList
  pyJoin dir_structure filename

/-- main.py save_resource: writes the response body at the derived path;
modelled as the pair (file path, bytes written). -/
def save_resource (content : List Nat) (output_dir domain url : List Char) :
    List Char × List Nat :=
  (save_path output_dir domain url, content)

/-- An HTML element as produced by BeautifulSoup for main.py
extract_html_links: tag name and string-valued attributes, with the
document flattened to the element list find_all traverses, in document
order. bs4 returns attribute values for href, src and srcset as plain
strings, and element.get of a missing attribute is None (the walrus test
in the source also rejects an empty string, which is falsy). -/
structure HTag where
  name : List Char
  attrs : List (List Char × List Char)
deriving DecidableEq

/-- element.get(attr): the first value bound to the attribute, if any. -/
def getAttr (e : HTag) (a : List Char) : Option (List Char) :=
  (e.attrs.find? (fun p => p.1 = a)).map (fun p => p.2)

/-- v.split(maxsplit=1)[0]: the first whitespace-separated token of v,
raising IndexError when v is empty or whitespace only. -/
def firstTok (v : List Char) : Except PyErr (List Char) :=
  let w := v.dropWhile pySpace
  if w = [] then .error .indexError
  else .ok (w.takeWhile (fun c => ¬ pySpace c))

/-- The comma-split-then-first-token treatment main.py applies to the
src and srcset values of img and source elements. -/
def srcsetTokens (v : List Char) : Except PyErr (List (List Char)) :=
  (pySplitChar ',' v).mapM firstTok

/-- The attribute specification of the tags dictionary in
extract_html_links: a single attribute or a list of attributes. -/
inductive AttrSpec where
  | single : List Char → AttrSpec
  | multi : List (List Char) → AttrSpec

/-- The tags dictionary of extract_html_links, in insertion order. -/
def tagsSpec : List (List Char × AttrSpec) :=
  [(("a").toList, .single (("href").toList)),
   (("link").toList, .single (("href").toList)),
   (("img").toList, .multi [("src").toList, ("srcset").toList]),
   (("script").toList, .single (("src").toList)),
   (("source").toList, .multi [("src").toList, ("srcset").toList])]

/-- The raw link strings one element contributes in extract_html_links. -/
def elementRawLinks (e : HTag) (spec : AttrSpec) :
    Except PyErr (List (List Char)) :=
  match spec with
  | .single a =>
    match getAttr e a with
    | some v => if v = [] then .ok [] else .ok [v]
    | none => .ok []
  | .multi as =>
    as.foldlM
      (fun acc a =>
        match getAttr e a with
        | some v =>
          if v = [] then .ok acc
          else do
            let ts ← srcsetTokens v
            .ok (acc ++ ts)
        | none => .ok acc) []

/-- The raw links contributed by soup.find_all(tag) for one entry of the
tags dictionary. -/
def tagRawLinks (soup : List HTag) (ts : List Char × AttrSpec) :
    Except PyErr (List (List Char)) :=
  (soup.filter (fun e => e.name = ts.1)).foldlM
    (fun acc e => do
      let ls ← elementRawLinks e ts.2
      .ok (acc ++ ls)) []

/-- main.py extract_html_links: raw links gathered over the tags
dictionary, each resolved against the base URL with urljoin. -/
def extract_html_links (soup : List HTag) (base_url : List Char) :
    Except PyErr (List (List Char)) := do
  let raw ← tagsSpec.foldlM
    (fun acc ts => do
      let ls ← tagRawLinks soup ts
      .ok (acc ++ ls)) []
  raw.mapM (urljoin base_url)

/-- The trailing part ['"]?\s*\) of the CSS url(...) pattern: consumes an
optional quote, then whitespace, then a closing parenthesis, returning the
rest of the input; the quoted alternative is preferred, as the regex
engine does. -/
def cssCloseMatch (l : List Char) : Option (List Char) :=
  let noQuote : List Char → Option (List Char) := fun r =>
    match r.dropWhile pySpace with
    | ')' :: t => some t
    | _ => none
  match l with
  | c :: cs =>
    if c = Char.ofNat 39 ∨ c = Char.ofNat 34 then
      match noQuote cs with
      | some t => some t
      | none => noQuote l
    else noQuote l
  | [] => noQuote l

/-- The lazy group (.*?) of the CSS pattern: the shortest prefix (not
crossing a newline) whose continuation matches cssCloseMatch. Returns the
group and the rest after the close. -/
def cssLazyBody (acc : List Char) (l : List Char) (fuel : Nat) :
    Option (List Char × List Char) :=
  match fuel with
  | 0 => none
  | fuel + 1 =>
    match cssCloseMatch l with
    | some t => some (acc.reverse, t)
    | none =>
      match l with
      | [] => none
      | c :: cs => if c = '\n' then none else cssLazyBody (c :: acc) cs fuel

/-- re.findall of url\(\s*['"]?(.*?)['"]?\s*\) (case-insensitive) as used
by main.py extract_css_links; scanning resumes after each whole match. -/
def cssFindAll (l : List Char) (fuel : Nat) : List (List Char) :=
  match fuel with
  | 0 => []
  | fuel + 1 =>
    match l with
    | [] => []
    | _ :: cs =>
      if (l.take 4).map pyLower = ("url(").toList then
        let r := (l.drop 4).dropWhile pySpace
        let m :=
          match r with
          | q :: qs =>
            if q = Char.ofNat 39 ∨ q = Char.ofNat 34 then
              match cssLazyBody [] qs qs.length.succ with
              | some gt => some gt
              | none => cssLazyBody [] r r.length.succ
            else cssLazyBody [] r r.length.succ
          | [] => cssLazyBody [] r r.length.succ
        match m with
        | some (g, t) => g :: cssFindAll t fuel
        | none => cssFindAll cs fuel
      else cssFindAll cs fuel

/-- main.py extract_css_links: all url(...) arguments resolved against
the base URL. -/
def extract_css_links (content base_url : List Char) :
    Except PyErr (List (List Char)) :=
  (cssFindAll content content.length.succ).mapM (urljoin base_url)

/-- What the crawl engine sees of one requests.get result: the HTTP
status, the final URL after redirects, the Content-Type header value
(empty when absent), the body parsed as HTML (the element list
BeautifulSoup would produce), the body as text, and the raw bytes. -/
structure Response where
  status : Nat
  url : List Char
  contentType : List Char
  soup : List HTag
  text : List Char
  content : List Nat

/-- The per-run context of the frontier loop in main.py crawl: the fetch
collaborator, a filesystem oracle saying which save paths fail, the
output directory, the base domain fixed from the initial response, and
the normalized max depth. -/
structure LoopCtx where
  fetch : List Char → Option Response
  fsFails : List Char → Bool
  output_dir : List Char
  base_domain : List Char
  maxd : Option Nat

/-- The mutable state of the frontier loop: the FIFO queue, the visited
set, and instrumentation recording every loop fetch (with the depth it
was dequeued at), every enqueue performed by the link-processing step,
and every file path saved. -/
structure CrawlState where
  queue : List (List Char × Nat)
  visited : List (List Char)
  log : List (List Char × Nat)
  enq : List (List Char × Nat)
  savedPaths : List (List Char)
deriving DecidableEq

/-- An exception escaping the body of the frontier loop; it is caught by
the top-level handler of crawl, which exits with code 1. -/
inductive StepErr where
  | scopeParse : List Char → StepErr
  | saveFail : List Char → StepErr
  | normalizeFail : List Char → StepErr
  | validityFail : List Char → StepErr
deriving DecidableEq

/-- Lines 177-184 of main.py: normalize each extracted link, test
validity and scope, and enqueue unvisited survivors at depth + 1.
Exceptions escape with the state at the moment they are raised. -/
def processLinks (ctx : LoopCtx) (depth : Nat) :
    List (List Char) → CrawlState → Except (StepErr × CrawlState) CrawlState
  | [], st => .ok st
  | link :: rest, st =>
    match normalize_link link with
    | .error _ => .error (.normalizeFail link, st)
    | .ok clean =>
      match is_valid clean with
      | .error _ => .error (.validityFail clean, st)
      | .ok false => processLinks ctx depth rest st
      | .ok true =>
        match should_download clean ctx.base_domain with
        | .error _ => .error (.validityFail clean, st)
        | .ok false => processLinks ctx depth rest st
        | .ok true =>
          if clean ∈ st.visited then processLinks ctx depth rest st
          else
            processLinks ctx depth rest
              { st with queue := st.queue ++ [(clean, depth + 1)],
                        enq := st.enq ++ [(clean, depth + 1)] }

/-- One iteration of the frontier loop of main.py crawl (lines 126-184),
for a non-empty queue: depth gate, visited gate, fetch with
raise_for_status, scope check on the final URL, save, content-type
dispatch to a link extractor whose exceptions are caught, then
link processing. -/
def crawlStep (ctx : LoopCtx) (st : CrawlState) :
    Except (StepErr × CrawlState) CrawlState :=
  match st.queue with
  | [] => .ok st
  | (url, depth) :: rest =>
    let st1 := { st with queue := rest }
    let skipDepth :=
      match ctx.maxd with
      | some d => decide (d < depth)
      | none => false
    if skipDepth then .ok st1
    else if url ∈ st1.visited then .ok st1
    else
      let st2 := { st1 with visited := url :: st1.visited,
                            log := st1.log ++ [(url, depth)] }
      match ctx.fetch url with
      | none => .ok st2
      | some r =>
        if 400 ≤ r.status ∧ r.status < 600 then .ok st2
        else
          match should_download r.url ctx.base_domain with
          | .error _ => .error (.scopeParse r.url, st2)
          | .ok false => .ok st2
          | .ok true =>
            let p := save_path ctx.output_dir ctx.base_domain r.url
            if ctx.fsFails p then .error (.saveFail p, st2)
            else
              let st3 := { st2 with savedPaths := st2.savedPaths ++ [p] }
              let ct := pyStripWs (r.contentType.takeWhile (fun c => c ≠ ';'))
              let links :=
                if ct = ("text/html").toList then
                  match extract_html_links r.soup r.url with
                  | .ok ls => ls
                  | .error _ => []
                else if ct = ("text/css").toList then
                  match extract_css_links r.text r.url with
                  | .ok ls => ls
                  | .error _ => []
                else []
              processLinks ctx depth links st3

/-- The frontier loop, run with fuel (the Python loop has no bound; every
theorem below holds for every fuel value). -/
def crawlLoop (ctx : LoopCtx) : Nat → CrawlState → Except (StepErr × CrawlState) CrawlState
  | 0, st => .ok st
  | n + 1, st =>
    match st.queue with
    | [] => .ok st
    | _ :: _ =>
      match crawlStep ctx st with
      | .ok st1 => crawlLoop ctx n st1
      | .error e => .error e

/-- Lines 104-105 of main.py: a negative max depth means unlimited. -/
def normMaxDepth (md : Option Int) : Option Nat :=
  match md with
  | some d => if d < 0 then none else some d.toNat
  | none => none

/-- The outcome of one crawl invocation: the process exit code, the final
loop state when the frontier loop was reached, and every URL passed to
requests.get (the initial redirect-resolving request first, then the loop
fetches in order). -/
structure CrawlResult where
  exit : Nat
  finalState : Option CrawlState
  allGets : List (List Char)
deriving DecidableEq

/-- main.py crawl: initial fetch of the start URL (exit 1 unless the
status is exactly 200), base domain fixed from the post-redirect URL,
then the frontier loop seeded with that URL at depth 0; any exception
escaping the loop is caught by the top-level handler, exit 1. -/
def crawl (fetch : List Char → Option Response) (fsFails : List Char → Bool)
    (start output_dir : List Char) (max_depth : Option Int) (fuel : Nat) :
    CrawlResult :=
  match fetch start with
  | none => ⟨1, none, [start]⟩
  | some r =>
    if r.status ≠ 200 then ⟨1, none, [start]⟩
    else if ¬ urlparseOk r.url then ⟨1, none, [start]⟩
    else
      let base_domain := (urlparse r.url []).netloc
      let ctx : LoopCtx := ⟨fetch, fsFails, output_dir, base_domain, normMaxDepth max_depth⟩
      let st0 : CrawlState := ⟨[(r.url, 0)], [], [], [], []⟩
      match crawlLoop ctx fuel st0 with
      | .ok st => ⟨0, some st, start :: st.log.map Prod.fst⟩
      | .error (_, st) => ⟨1, some st, start :: st.log.map Prod.fst⟩

/-- The loop fetch log of a crawl result ([] when the loop never ran). -/
def CrawlResult.loopLog (res : CrawlResult) : List (List Char × Nat) :=
  match res.finalState with
  | some st => st.log
  | none => []

/-- The enqueue log of a crawl result ([] when the loop never ran). -/
def CrawlResult.enqLog (res : CrawlResult) : List (List Char × Nat) :=
  match res.finalState with
  | some st => st.enq
  | none => []

/-! ## Helper lemmas: list membership chains and character facts -/

/-- The serialized material following the netloc: path (with params),
query and fragment parts, each with its delimiter. -/
def serialTail (p : ParseResult) : List Char :=
  let u1 := if p.params ≠ [] then p.path ++ ';' :: p.params else p.path
  (if u1 ≠ [] ∧ u1.head? ≠ some '/' then '/' :: u1 else u1) ++
    (if p.query ≠ [] then '?' :: p.query else []) ++
    (if p.fragment ≠ [] then '#' :: p.fragment else [])

/-- A scheme string that re-parses as a scheme: non-empty, leading ASCII
letter, all scheme characters. -/
def goodScheme (s : List Char) : Bool :=
  match s with
  | [] => false
  | c :: _ => isPyAlpha c && s.all isSchemeChar

/-- The state carried by a loop outcome, whether the loop body returned
normally or an exception escaped. -/
def loopState (r : Except (StepErr × CrawlState) CrawlState) : CrawlState :=
  match r with
  | .ok st => st
  | .error (_, st) => st

/-- The file paths saved by a crawl ([] when the loop never ran). -/
def CrawlResult.savedLog (res : CrawlResult) : List (List Char) :=
  match res.finalState with
  | some st => st.savedPaths
  | none => []

/-- Fixture: a two-page site whose start URL carries a query string and
whose start page links to a URL carrying a query and a fragment. -/
def fetchFixtureQuery : List Char → Option Response := fun u =>
  if u = ("http://e.com/?q=1").toList then
    some ⟨200, ("http://e.com/?q=1").toList, ("text/html").toList,
      [⟨("a").toList, [(("href").toList, ("x.html?id=2#f").toList)]⟩], [], []⟩
  else if u = ("http://e.com/x.html").toList then
    some ⟨200, ("http://e.com/x.html").toList, ("text/html").toList, [], [], []⟩
  else none

/-- The run of the crawler on fetchFixtureQuery. -/
def crawlFixtureQuery : CrawlResult :=
  crawl fetchFixtureQuery (fun _ => false) (("http://e.com/?q=1").toList)
    (("out").toList) none 10

/-- Fixture: a three-page site; the start page links to a.html and
b.html, both of which exist. -/
def fetchFixtureSave : List Char → Option Response := fun u =>
  if u = ("http://e.com/").toList then
    some ⟨200, ("http://e.com/").toList, ("text/html").toList,
      [⟨("a").toList, [(("href").toList, ("a.html").toList)]⟩,
       ⟨("a").toList, [(("href").toList, ("b.html").toList)]⟩], [], []⟩
  else if u = ("http://e.com/a.html").toList then
    some ⟨200, ("http://e.com/a.html").toList, ("text/html").toList, [], [], []⟩
  else if u = ("http://e.com/b.html").toList then
    some ⟨200, ("http://e.com/b.html").toList, ("text/html").toList, [], [], []⟩
  else none

/-- The run of the crawler on fetchFixtureSave with a filesystem on which
writing out/e.com/a.html fails (for example, permission denied). -/
def crawlFixtureSaveFail : CrawlResult :=
  crawl fetchFixtureSave (fun p => p = ("out/e.com/a.html").toList)
    (("http://e.com/").toList) (("out").toList) none 10

/-- The same crawl on a healthy filesystem, for contrast. -/
def crawlFixtureSaveOk : CrawlResult :=
  crawl fetchFixtureSave (fun _ => false)
    (("http://e.com/").toList) (("out").toList) none 10

def extractGroupedSpec (soup : List HTag) (base_url : List Char) :
    Except PyErr (List (List Char)) := do
  let r1 ← tagRawLinks soup (("a").toList, .single (("href").toList))
  let r2 ← tagRawLinks soup (("link").toList, .single (("href").toList))
  let r3 ← tagRawLinks soup
    (("img").toList, .multi [("src").toList, ("srcset").toList])
  let r4 ← tagRawLinks soup (("script").toList, .single (("src").toList))
  let r5 ← tagRawLinks soup
    (("source").toList, .multi [("src").toList, ("srcset").toList])
  (r1 ++ r2 ++ r3 ++ r4 ++ r5).mapM (urljoin base_url)

/-- Fixture: a page whose only element is an img with a srcset whose
trailing comma leaves an empty candidate. -/
def fetchFixtureSrcset : List Char → Option Response := fun u =>
  if u = ("http://e.com/").toList then
    some ⟨200, ("http://e.com/").toList, ("text/html").toList,
      [⟨("img").toList, [(("srcset").toList, ("a.png 1x,").toList)]⟩], [], []⟩
  else none

/-- The run of the crawler on fetchFixtureSrcset. -/
def crawlFixtureSrcset : CrawlResult :=
  crawl fetchFixtureSrcset (fun _ => false) (("http://e.com/").toList)
    (("out").toList) none 10

theorem mem_of_mem_takeWhile {p : Char → Bool} {l : List Char} {a : Char}
    (h : a ∈ l.takeWhile p) : a ∈ l :=
  (List.takeWhile_sublist p).subset h

theorem mem_of_mem_dropWhile {p : Char → Bool} {l : List Char} {a : Char}
    (h : a ∈ l.dropWhile p) : a ∈ l :=
  (List.dropWhile_sublist p).subset h

theorem mem_of_mem_take {l : List Char} {n : Nat} {a : Char}
    (h : a ∈ l.take n) : a ∈ l :=
  (List.take_sublist n l).subset h

theorem mem_cleanUrl {u : List Char} {c : Char} (h : c ∈ cleanUrl u) :
    c ∈ u ∧ ¬ (c = '\t' ∨ c = '\r' ∨ c = '\n') := by
  unfold cleanUrl at h
  rw [List.mem_filter] at h
  exact ⟨mem_of_mem_dropWhile h.1, by simpa using h.2⟩

theorem mem_schemeSplit_snd {d u : List Char} {c : Char}
    (h : c ∈ (schemeSplit d u).2) : c ∈ u := by
  unfold schemeSplit at h
  dsimp only at h
  rcases hh : (u.takeWhile (fun c => c ≠ ':')).head? with _ | ch <;>
    rw [hh] at h
  · exact h
  · dsimp only at h
    split at h
    · exact List.mem_of_mem_drop h
    · exact h

theorem schemeSplit_snd_d_indep (d d' u : List Char) :
    (schemeSplit d u).2 = (schemeSplit d' u).2 := by
  unfold schemeSplit
  dsimp only
  rcases hh : (u.takeWhile (fun c => c ≠ ':')).head? with _ | ch
  · rfl
  · dsimp only
    split <;> rfl

theorem mem_splitnetloc_fst {u : List Char} {c : Char}
    (h : c ∈ (splitnetloc u).1) : c ∈ u ∧ ¬ c ∈ delimsNetloc := by
  unfold splitnetloc at h
  split at h
  · refine ⟨List.mem_of_mem_drop (mem_of_mem_takeWhile h), ?_⟩
    have := List.mem_takeWhile_imp h
    simpa using this
  · simp at h

theorem mem_splitnetloc_snd {u : List Char} {c : Char}
    (h : c ∈ (splitnetloc u).2) : c ∈ u := by
  unfold splitnetloc at h
  split at h
  · exact List.mem_of_mem_drop (mem_of_mem_dropWhile h)
  · exact h

theorem mem_splitOnFirst_fst {sep : Char} {u : List Char} {c : Char}
    (h : c ∈ (splitOnFirst sep u).1) : c ∈ u ∧ c ≠ sep := by
  unfold splitOnFirst at h
  refine ⟨mem_of_mem_takeWhile h, ?_⟩
  have := List.mem_takeWhile_imp h
  simpa using this

theorem mem_splitOnFirst_snd {sep : Char} {u : List Char} {c : Char}
    (h : c ∈ (splitOnFirst sep u).2) : c ∈ u :=
  mem_of_mem_dropWhile (List.mem_of_mem_drop h)

theorem mem_splitparams_fst {u : List Char} {c : Char}
    (h : c ∈ (splitparams u).1) : c ∈ u := by
  unfold splitparams at h
  split at h
  · dsimp only at h
    split at h
    · rcases List.mem_append.mp h with h1 | h1
      · exact mem_of_mem_take h1
      · have h2 := mem_of_mem_takeWhile h1
        have : c ∈ u.reverse.takeWhile (fun c => c ≠ '/') := by
          simpa using (List.mem_reverse.mp (by simpa using h2))
        simpa using List.mem_reverse.mp (by simpa using mem_of_mem_takeWhile this)
    · exact h
  · exact (mem_splitOnFirst_fst h).1

theorem mem_splitparams_snd {u : List Char} {c : Char}
    (h : c ∈ (splitparams u).2) : c ∈ u := by
  unfold splitparams at h
  split at h
  · dsimp only at h
    split at h
    · have h2 := mem_of_mem_dropWhile (List.mem_of_mem_drop h)
      have : c ∈ u.reverse.takeWhile (fun c => c ≠ '/') := by
        simpa using (List.mem_reverse.mp (by simpa using h2))
      simpa using List.mem_reverse.mp (by simpa using mem_of_mem_takeWhile this)
    · simp at h
  · exact mem_splitOnFirst_snd h

theorem schemeChar_facts :
    ∀ c, isSchemeChar c = true →
      c ≠ ':' ∧ ¬ (c = '\t' ∨ c = '\r' ∨ c = '\n') ∧ 32 < c.toNat ∧
      ¬ c ∈ delimsNetloc ∧ c ≠ '#' ∧ c ≠ '?' := by
  intro c hc
  have hm : c ∈ ("abcdefghijklmnopqrstuvwxyzABCDEFGHIJKLMNOPQRSTUVWXYZ0123456789+-.").toList :=
    of_decide_eq_true hc
  revert hm
  have : ∀ x ∈ ("abcdefghijklmnopqrstuvwxyzABCDEFGHIJKLMNOPQRSTUVWXYZ0123456789+-.").toList,
      x ≠ ':' ∧ ¬ (x = '\t' ∨ x = '\r' ∨ x = '\n') ∧ 32 < x.toNat ∧
      ¬ x ∈ delimsNetloc ∧ x ≠ '#' ∧ x ≠ '?' := by decide
  exact fun hm => this c hm

theorem pyAlpha_facts :
    ∀ c, isPyAlpha c = true → 32 < c.toNat := by
  intro c hc
  have hm : c ∈ ("abcdefghijklmnopqrstuvwxyzABCDEFGHIJKLMNOPQRSTUVWXYZ").toList :=
    of_decide_eq_true hc
  revert hm
  have : ∀ x ∈ ("abcdefghijklmnopqrstuvwxyzABCDEFGHIJKLMNOPQRSTUVWXYZ").toList,
      32 < x.toNat := by decide
  exact fun hm => this c hm

theorem pyLower_shape (c : Char) :
    pyLower c = c ∨ pyLower c ∈ ("abcdefghijklmnopqrstuvwxyz").toList := by
  unfold pyLower
  split <;> simp

/-- Characters of the scheme component of a parse with empty default: each
one is either a scheme character or an ASCII lowercase letter. -/
theorem urlparse_scheme_chars (u : List Char) :
    ∀ c ∈ (urlparse u []).scheme, c ≠ '#' ∧ c ≠ '?' := by
  intro c hc
  have hs : (urlparse u []).scheme = (schemeSplit [] (cleanUrl u)).1 := by
    simp [urlparse, pyStripWs]
  rw [hs] at hc
  unfold schemeSplit at hc
  dsimp only at hc
  rcases hh : ((cleanUrl u).takeWhile (fun c => c ≠ ':')).head? with _ | ch <;>
    rw [hh] at hc
  · simp at hc
  · dsimp only at hc
    split at hc
    · rename_i hcond
      rw [List.mem_map] at hc
      obtain ⟨c0, hc0, rfl⟩ := hc
      have hsc : isSchemeChar c0 = true := by
        have := hcond.2.2
        exact List.all_eq_true.mp this c0 hc0
      rcases pyLower_shape c0 with he | he
      · rw [he]
        have := schemeChar_facts c0 hsc
        exact ⟨this.2.2.2.2.1, this.2.2.2.2.2⟩
      · revert he
        have : ∀ x ∈ ("abcdefghijklmnopqrstuvwxyz").toList, x ≠ '#' ∧ x ≠ '?' := by
          decide
        exact fun he => this _ he
    · simp at hc

/-- The netloc of any parse contains no slash, question mark, hash, tab,
CR or LF. -/
theorem urlparse_netloc_chars (u d : List Char) :
    ∀ c ∈ (urlparse u d).netloc,
      ¬ c ∈ delimsNetloc ∧ ¬ (c = '\t' ∨ c = '\r' ∨ c = '\n') := by
  intro c hc
  have hs : (urlparse u d).netloc =
      (splitnetloc (schemeSplit ((pyStripWs d).filter
        (fun c => ¬ (c = '\t' ∨ c = '\r' ∨ c = '\n'))) (cleanUrl u)).2).1 := by
    simp [urlparse]
  rw [hs] at hc
  have h1 := mem_splitnetloc_fst hc
  have h2 := mem_schemeSplit_snd h1.1
  exact ⟨h1.2, (mem_cleanUrl h2).2⟩

/-- The netloc of a parse does not depend on the default scheme. -/
theorem urlparse_netloc_d_indep (u d : List Char) :
    (urlparse u d).netloc = (urlparse u []).netloc := by
  simp only [urlparse]
  rw [schemeSplit_snd_d_indep _ ((pyStripWs []).filter
    (fun c => ¬ (c = '\t' ∨ c = '\r' ∨ c = '\n')))]

/-- Bracket balance of the netloc, for any default, from urlparseOk. -/
theorem netloc_brackets_of_ok {u : List Char} (h : urlparseOk u = true) (d : List Char) :
    ((urlparse u d).netloc.contains '[') = ((urlparse u d).netloc.contains ']') := by
  rw [urlparse_netloc_d_indep u d]
  unfold urlparseOk at h
  exact beq_iff_eq.mp h

/-! ## Re-parsing a serialized URL: the netloc survives intact -/

theorem splitnetloc_exact {netloc B : List Char}
    (hd : ∀ c ∈ netloc, ¬ c ∈ delimsNetloc)
    (hB : ∀ c, B.head? = some c → c ∈ delimsNetloc) :
    (splitnetloc ('/' :: '/' :: (netloc ++ B))).1 = netloc := by
  unfold splitnetloc
  rw [if_pos (by simp)]
  dsimp only
  rw [show List.drop 2 ('/' :: '/' :: (netloc ++ B)) = netloc ++ B from rfl]
  rw [List.takeWhile_append_of_pos (by intro a ha; simpa using hd a ha)]
  rcases hBc : B with _ | ⟨b, bs⟩
  · simp
  · have hb : b ∈ delimsNetloc := hB b (by rw [hBc]; rfl)
    rw [List.takeWhile_cons, if_neg (by simpa using hb)]
    simp

theorem serialTail_head (p : ParseResult) :
    ∀ c, (serialTail p).head? = some c → c ∈ delimsNetloc := by
  intro c
  unfold serialTail
  dsimp only
  generalize (if p.params ≠ [] then p.path ++ ';' :: p.params else p.path) = u1
  by_cases h1 : u1 ≠ [] ∧ u1.head? ≠ some '/'
  · rw [if_pos h1]
    intro hc
    simp only [List.cons_append, List.head?_cons] at hc
    rw [← Option.some_inj.mp hc]
    simp [delimsNetloc]
  · rw [if_neg h1]
    rcases u1 with _ | ⟨c0, cs⟩
    · simp only [List.nil_append]
      by_cases hq : p.query ≠ []
      · rw [if_pos hq]
        intro hc
        simp only [List.cons_append, List.head?_cons] at hc
        rw [← Option.some_inj.mp hc]
        simp [delimsNetloc]
      · rw [if_neg hq]
        simp only [List.nil_append]
        by_cases hf : p.fragment ≠ []
        · rw [if_pos hf]
          intro hc
          simp only [List.head?_cons] at hc
          rw [← Option.some_inj.mp hc]
          simp [delimsNetloc]
        · rw [if_neg hf]
          intro hc
          simp at hc
    · have hc0 : c0 = '/' := by
        rcases not_and_or.mp h1 with h | h
        · simp at h
        · simpa using h
      intro hc
      simp only [List.cons_append, List.head?_cons] at hc
      rw [← Option.some_inj.mp hc, hc0]
      simp [delimsNetloc]

theorem urlunparse_eq (p : ParseResult) (hn : p.netloc ≠ []) :
    urlunparse p =
      (if p.scheme = [] then [] else p.scheme ++ [':']) ++
        '/' :: '/' :: (p.netloc ++ serialTail p) := by
  unfold urlunparse serialTail
  dsimp only
  rw [if_pos (Or.inl hn)]
  split_ifs <;> simp_all [List.append_assoc]

theorem cleanUrl_eq_filter {s : List Char}
    (hhead : ∀ c, s.head? = some c → 32 < c.toNat) :
    cleanUrl s = s.filter (fun c => ¬ (c = '\t' ∨ c = '\r' ∨ c = '\n')) := by
  unfold cleanUrl
  rcases s with _ | ⟨c, cs⟩
  · rfl
  · rw [List.dropWhile_cons, if_neg]
    have := hhead c rfl
    simp
    omega

theorem schemeSplit_no_scheme {X : List Char} :
    schemeSplit [] ('/' :: X) = ([], '/' :: X) := by
  unfold schemeSplit
  dsimp only
  rw [List.takeWhile_cons, if_pos (by decide)]
  simp only [List.head?_cons]
  rw [if_neg]
  intro h
  exact absurd h.2.1 (by decide)

theorem schemeSplit_exact {c0 : Char} {t r : List Char}
    (halpha : isPyAlpha c0 = true)
    (hall : ∀ c ∈ c0 :: t, isSchemeChar c = true) :
    (schemeSplit [] ((c0 :: t) ++ ':' :: r)).2 = r := by
  unfold schemeSplit
  dsimp only
  have htw : ((c0 :: t) ++ ':' :: r).takeWhile (fun c => c ≠ ':') = c0 :: t := by
    rw [List.takeWhile_append_of_pos
      (by intro a ha; have := schemeChar_facts a (hall a ha); simpa using this.1)]
    rw [List.takeWhile_cons, if_neg (by simp)]
    simp
  rw [htw]
  simp only [List.head?_cons]
  rw [if_pos]
  · dsimp only
    have h1 : (c0 :: t) ++ ':' :: r = ((c0 :: t) ++ [':']) ++ r := by simp
    rw [h1]
    have h2 : (c0 :: t).length + 1 = ((c0 :: t) ++ [':']).length := by simp
    rw [h2, List.drop_left]
  · refine ⟨by simp, halpha, ?_⟩
    exact List.all_eq_true.mpr hall

theorem reparse_netloc (p : ParseResult)
    (hn : p.netloc ≠ [])
    (hd : ∀ c ∈ p.netloc, ¬ c ∈ delimsNetloc ∧ ¬ (c = '\t' ∨ c = '\r' ∨ c = '\n'))
    (hs : p.scheme = [] ∨
      ((∃ c0 t, p.scheme = c0 :: t ∧ isPyAlpha c0 = true) ∧
        ∀ c ∈ p.scheme, isSchemeChar c = true)) :
    (urlparse (urlunparse p) []).netloc = p.netloc := by
  have hnl : ∀ v : List Char, (urlparse v []).netloc =
      (splitnetloc (schemeSplit [] (cleanUrl v)).2).1 := by
    intro v
    simp [urlparse, pyStripWs]
  have hBfilt : ∀ c,
      ((serialTail p).filter (fun c => ¬ (c = '\t' ∨ c = '\r' ∨ c = '\n'))).head? =
        some c → c ∈ delimsNetloc := by
    intro c hc
    rcases hB : serialTail p with _ | ⟨b, bs⟩
    · rw [hB] at hc; simp at hc
    · have hb := serialTail_head p b (by rw [hB]; rfl)
      have hfb : (decide ¬ (b = '\t' ∨ b = '\r' ∨ b = '\n')) = true := by
        revert hb
        have hdx : ∀ x ∈ delimsNetloc, ¬ (x = '\t' ∨ x = '\r' ∨ x = '\n') := by decide
        intro hb
        simpa using hdx b hb
      rw [hB, List.filter_cons] at hc
      rw [if_pos hfb] at hc
      simp only [List.head?_cons] at hc
      rw [← Option.some_inj.mp hc]
      exact serialTail_head p b (by rw [hB]; rfl)
  have hnetfilt : p.netloc.filter (fun c => ¬ (c = '\t' ∨ c = '\r' ∨ c = '\n')) =
      p.netloc :=
    List.filter_eq_self.mpr (fun a ha => by simpa using (hd a ha).2)
  rcases hs with hsch | ⟨⟨c0, t, hsch, halpha⟩, hall⟩
  · rw [hnl, urlunparse_eq p hn, if_pos hsch, List.nil_append]
    have hhead : ∀ c : Char,
        ('/' :: '/' :: (p.netloc ++ serialTail p)).head? = some c → 32 < c.toNat := by
      intro c hc
      simp only [List.head?_cons] at hc
      rw [← Option.some_inj.mp hc]
      decide
    rw [cleanUrl_eq_filter hhead]
    have hfsplit : ('/' :: '/' :: (p.netloc ++ serialTail p)).filter
        (fun c => ¬ (c = '\t' ∨ c = '\r' ∨ c = '\n')) =
        '/' :: '/' :: (p.netloc ++
          (serialTail p).filter (fun c => ¬ (c = '\t' ∨ c = '\r' ∨ c = '\n'))) := by
      simp only [List.filter_cons, List.filter_append, hnetfilt]
      simp
    rw [hfsplit, schemeSplit_no_scheme]
    exact splitnetloc_exact (fun a ha => (hd a ha).1) hBfilt
  · rw [hnl, urlunparse_eq p hn, if_neg (by rw [hsch]; simp)]
    have hassoc : (p.scheme ++ [':']) ++ '/' :: '/' :: (p.netloc ++ serialTail p) =
        (c0 :: t) ++ ':' :: '/' :: '/' :: (p.netloc ++ serialTail p) := by
      rw [hsch]; simp
    rw [hassoc]
    have hhead : ∀ c : Char,
        ((c0 :: t) ++ ':' :: '/' :: '/' :: (p.netloc ++ serialTail p)).head? =
          some c → 32 < c.toNat := by
      intro c hc
      simp only [List.cons_append, List.head?_cons] at hc
      rw [← Option.some_inj.mp hc]
      exact pyAlpha_facts c0 halpha
    rw [cleanUrl_eq_filter hhead]
    have hschfilt : (c0 :: t).filter (fun c => ¬ (c = '\t' ∨ c = '\r' ∨ c = '\n')) =
        c0 :: t :=
      List.filter_eq_self.mpr (fun a ha => by
        have := schemeChar_facts a (hall a (hsch ▸ ha))
        simpa using this.2.1)
    have hfsplit : ((c0 :: t) ++ ':' :: '/' :: '/' :: (p.netloc ++ serialTail p)).filter
        (fun c => ¬ (c = '\t' ∨ c = '\r' ∨ c = '\n')) =
        (c0 :: t) ++ ':' :: '/' :: '/' :: (p.netloc ++
          (serialTail p).filter (fun c => ¬ (c = '\t' ∨ c = '\r' ∨ c = '\n'))) := by
      simp only [List.filter_cons, List.filter_append, hnetfilt, hschfilt]
      simp
    rw [hfsplit]
    rw [schemeSplit_exact halpha (fun c hc => hall c (hsch ▸ hc))]
    exact splitnetloc_exact (fun a ha => (hd a ha).1) hBfilt

theorem goodScheme_spec {s : List Char} (h : goodScheme s = true) :
    (∃ c0 t, s = c0 :: t ∧ isPyAlpha c0 = true) ∧
      ∀ c ∈ s, isSchemeChar c = true := by
  rcases s with _ | ⟨c, cs⟩
  · simp [goodScheme] at h
  · unfold goodScheme at h
    rw [Bool.and_eq_true] at h
    exact ⟨⟨c, cs, rfl, h.1⟩, List.all_eq_true.mp h.2⟩

theorem uses_relative_schemes :
    ∀ s ∈ uses_relative, s = [] ∨ goodScheme s = true := by decide

theorem uses_relative_sub_netloc :
    ∀ s ∈ uses_relative, s ∈ uses_netloc := by decide

theorem urlunparse_ok (p : ParseResult)
    (hn : p.netloc ≠ [])
    (hd : ∀ c ∈ p.netloc, ¬ c ∈ delimsNetloc ∧ ¬ (c = '\t' ∨ c = '\r' ∨ c = '\n'))
    (hbr : (p.netloc.contains '[') = (p.netloc.contains ']'))
    (hs : p.scheme = [] ∨ goodScheme p.scheme = true) :
    urlparseOk (urlunparse p) = true := by
  unfold urlparseOk
  rw [reparse_netloc p hn hd ?hs2]
  · rw [hbr]
    simp
  case hs2 =>
    rcases hs with h | h
    · exact Or.inl h
    · exact Or.inr (goodScheme_spec h)

theorem urljoin_ok_of_base {base url out : List Char}
    (hok : urlparseOk base = true)
    (hn : (urlparse base []).netloc ≠ [])
    (hj : urljoin base url = .ok out) :
    urlparseOk out = true := by
  unfold urljoin at hj
  by_cases hb : base = []
  · rw [hb] at hn
    exact absurd (by decide : (urlparse ([] : List Char) []).netloc = []) hn
  rw [if_neg hb] at hj
  by_cases hu : url = []
  · rw [if_pos hu] at hj
    simp only [Except.ok.injEq] at hj
    rw [← hj]
    exact hok
  rw [if_neg hu, if_neg (not_not_intro hok)] at hj
  try dsimp only at hj
  by_cases hu2 : urlparseOk url = true
  swap
  · rw [if_pos hu2] at hj
    exact absurd hj (by simp)
  rw [if_neg (not_not_intro hu2)] at hj
  try dsimp only at hj
  by_cases hsch : (urlparse url (urlparse base []).scheme).scheme =
      (urlparse base []).scheme ∧
      (urlparse url (urlparse base []).scheme).scheme ∈ uses_relative
  swap
  · rw [if_pos ?hc] at hj
    · simp only [Except.ok.injEq] at hj
      rw [← hj]
      exact hu2
    case hc =>
      rcases Decidable.not_and_iff_or_not.mp hsch with h | h
      · exact Or.inl h
      · exact Or.inr h
  rw [if_neg ?hc] at hj
  case hc =>
    intro h
    rcases h with h | h
    · exact h hsch.1
    · exact h hsch.2
  have hrel := hsch.2
  have hschemeok : (urlparse url (urlparse base []).scheme).scheme = [] ∨
      goodScheme (urlparse url (urlparse base []).scheme).scheme = true :=
    uses_relative_schemes _ hrel
  by_cases hnl : (urlparse url (urlparse base []).scheme).scheme ∈ uses_netloc ∧
      (urlparse url (urlparse base []).scheme).netloc ≠ []
  · rw [if_pos hnl] at hj
    simp only [Except.ok.injEq] at hj
    rw [← hj]
    refine urlunparse_ok _ hnl.2 ?_ ?_ hschemeok
    · exact urlparse_netloc_chars url _
    · exact netloc_brackets_of_ok hu2 _
  · rw [if_neg hnl] at hj
    try dsimp only at hj
    rw [if_pos (uses_relative_sub_netloc _ hrel)] at hj
    by_cases hpp : (urlparse url (urlparse base []).scheme).path = [] ∧
        (urlparse url (urlparse base []).scheme).params = []
    · rw [if_pos hpp] at hj
      try dsimp only at hj
      simp only [Except.ok.injEq] at hj
      rw [← hj]
      refine urlunparse_ok _ hn ?_ ?_ hschemeok
      · exact urlparse_netloc_chars base _
      · exact netloc_brackets_of_ok hok _
    · rw [if_neg hpp] at hj
      try dsimp only at hj
      simp only [Except.ok.injEq] at hj
      rw [← hj]
      refine urlunparse_ok _ hn ?_ ?_ hschemeok
      · exact urlparse_netloc_chars base _
      · exact netloc_brackets_of_ok hok _

/-! ## Claim C8 -/

/-- C8: URL normalization in the enqueue step has no failure mode. Every
link handed to the normalization of lines 177-180 is an output of urljoin
against the page's final URL, which (having passed the scope check) parses
successfully and has a non-empty host; for every such link the parse and
re-serialize normalization succeeds, so normalization never raises and
never aborts the crawl. -/
theorem C8_normalization_never_raises
    (base link out : List Char)
    (hbase : urlparseOk base = true)
    (hhost : (urlparse base []).netloc ≠ [])
    (hext : urljoin base link = .ok out) :
    ∃ clean, normalize_link out = .ok clean := by
  have h := urljoin_ok_of_base hbase hhost hext
  unfold normalize_link
  rw [if_neg (not_not_intro h)]
  exact ⟨_, rfl⟩

/-- Witness for C8 at a concrete base URL and extracted link. -/
theorem C8_normalization_never_raises_witness :
    urlparseOk (("http://example.com/dir/page.html").toList) = true ∧
    (urlparse (("http://example.com/dir/page.html").toList) []).netloc ≠ [] ∧
    urljoin (("http://example.com/dir/page.html").toList) (("a.png").toList) =
      .ok (("http://example.com/dir/a.png").toList) ∧
    ∃ clean, normalize_link (("http://example.com/dir/a.png").toList) = .ok clean :=
  ⟨by decide, by decide, by decide,
    C8_normalization_never_raises (("http://example.com/dir/page.html").toList)
      (("a.png").toList) (("http://example.com/dir/a.png").toList)
      (by decide) (by decide) (by decide)⟩

/-! ## Claim C3 -/

/-- Counterexample to C3 as stated: should_download returns true for a URL
whose host equals the site domain but whose scheme is ftp, neither http
nor https; the claimed iff would force false. -/
theorem C3_scheme_not_checked_cex :
    should_download (("ftp://example.com/x").toList) (("example.com").toList) =
      .ok true ∧
    (urlparse (("ftp://example.com/x").toList) []).scheme = ("ftp").toList ∧
    ¬ ("ftp").toList ∈ [("http").toList, ("https").toList] := by
  decide

/-- C3 amended: should_download alone checks only that the parsed netloc
equals the fixed site domain; the scheme restriction to http or https is
enforced separately by is_valid, and the conjunction of the two checks, as
used at the enqueue gate, holds exactly when the scheme is http or https
and the host (with port) equals the site domain. -/
theorem C3_scope_conjunction
    (url domain : List Char) (h : urlparseOk url = true) :
    (should_download url domain = .ok ((urlparse url []).netloc = domain)) ∧
    ((is_valid url = .ok true ∧ should_download url domain = .ok true) ↔
      ((urlparse url []).scheme ∈ [("http").toList, ("https").toList] ∧
        (urlparse url []).netloc = domain)) := by
  unfold should_download is_valid
  rw [if_neg (not_not_intro h), if_neg (not_not_intro h)]
  refine ⟨by simp, ?_⟩
  constructor
  · intro hc
    have h1 := Except.ok.inj hc.1
    have h2 := Except.ok.inj hc.2
    constructor
    · simpa using h1.symm
    · simpa using h2.symm
  · intro hc
    constructor
    · simp only [Except.ok.injEq, decide_eq_true_eq]
      simpa using hc.1
    · simp [hc.2]

/-- Witness for the amended C3 at a host-with-port URL. -/
theorem C3_scope_conjunction_witness :
    urlparseOk (("https://example.com:8080/a").toList) = true ∧
    (should_download (("https://example.com:8080/a").toList)
        (("example.com:8080").toList) =
      .ok ((urlparse (("https://example.com:8080/a").toList) []).netloc =
        ("example.com:8080").toList)) ∧
    ((is_valid (("https://example.com:8080/a").toList) = .ok true ∧
        should_download (("https://example.com:8080/a").toList)
          (("example.com:8080").toList) = .ok true) ↔
      ((urlparse (("https://example.com:8080/a").toList) []).scheme ∈
          [("http").toList, ("https").toList] ∧
        (urlparse (("https://example.com:8080/a").toList) []).netloc =
          ("example.com:8080").toList)) :=
  ⟨by decide,
    C3_scope_conjunction (("https://example.com:8080/a").toList)
      (("example.com:8080").toList) (by decide)⟩

/-! ## Claim C4 -/

theorem pySplitChar_ne_nil (sep : Char) (l : List Char) :
    pySplitChar sep l ≠ [] := by
  cases l with
  | nil => simp [pySplitChar]
  | cons c cs =>
    unfold pySplitChar
    split
    · simp
    · split
      · simp
      · simp

theorem pySplitChar_no_sep {sep : Char} {l : List Char} (h : ¬ sep ∈ l) :
    pySplitChar sep l = [l] := by
  induction l with
  | nil => rfl
  | cons c cs ih =>
    unfold pySplitChar
    rw [if_neg (by intro hc; exact h (hc ▸ List.mem_cons_self c cs))]
    rw [ih (fun hm => h (List.mem_cons_of_mem c hm))]

theorem pySplitChar_two {sep : Char} {l : List Char} (h : sep ∈ l) :
    2 ≤ (pySplitChar sep l).length := by
  induction l with
  | nil => simp at h
  | cons c cs ih =>
    unfold pySplitChar
    by_cases hc : c = sep
    · rw [if_pos hc]
      have := pySplitChar_ne_nil sep cs
      simp only [List.length_cons]
      have : 1 ≤ (pySplitChar sep cs).length := by
        cases hx : pySplitChar sep cs with
        | nil => exact absurd hx this
        | cons a as => simp
      omega
    · rw [if_neg hc]
      have hm : sep ∈ cs := by
        rcases List.mem_cons.mp h with h1 | h1
        · exact absurd h1.symm hc
        · exact h1
      have h2 := ih hm
      cases hx : pySplitChar sep cs with
      | nil => exact absurd hx (pySplitChar_ne_nil sep cs)
      | cons a as =>
        rw [hx] at h2
        simp only [List.length_cons] at h2 ⊢
        omega

theorem pySplitChar_cons (sep c : Char) (cs : List Char) :
    pySplitChar sep (c :: cs) =
      if c = sep then [] :: pySplitChar sep cs
      else
        match pySplitChar sep cs with
        | [] => [[c]]
        | p :: ps => (c :: p) :: ps := rfl

theorem pySplitChar_getLast_append {sep : Char} (l m : List Char) :
    (pySplitChar sep (l ++ sep :: m)).getLast? =
      (pySplitChar sep m).getLast? := by
  induction l with
  | nil =>
    rw [List.nil_append, pySplitChar_cons, if_pos rfl]
    cases hx : pySplitChar sep m with
    | nil => exact absurd hx (pySplitChar_ne_nil sep m)
    | cons a as => simp
  | cons c cs ih =>
    rw [List.cons_append, pySplitChar_cons]
    by_cases hc : c = sep
    · rw [if_pos hc]
      rw [show ([] : List Char) :: pySplitChar sep (cs ++ sep :: m) =
        [([] : List Char)] ++ pySplitChar sep (cs ++ sep :: m) from rfl]
      rw [List.getLast?_append_of_ne_nil _ (pySplitChar_ne_nil sep _)]
      exact ih
    · rw [if_neg hc]
      cases hx : pySplitChar sep (cs ++ sep :: m) with
      | nil => exact absurd hx (pySplitChar_ne_nil sep _)
      | cons a as =>
        rw [hx] at ih
        cases as with
        | nil =>
          exfalso
          have h2 := @pySplitChar_two sep (cs ++ sep :: m)
            (List.mem_append.mpr (Or.inr (List.mem_cons_self sep m)))
          rw [hx] at h2
          simp at h2
        | cons b bs =>
          simp only [List.getLast?_cons_cons] at ih ⊢
          exact ih

theorem pyJoin_no_slash {a b : List Char} (hb : b.head? ≠ some '/')
    (ha : a ≠ []) (hl : a.getLast? ≠ some '/') :
    pyJoin a b = a ++ '/' :: b := by
  unfold pyJoin
  rw [if_neg hb, if_neg (not_or.mpr ⟨ha, hl⟩)]

set_option maxHeartbeats 1600000 in
/-- C4: save_resource resolves its target path deterministically from
(outputRoot, siteDomain, url) alone: the written path ignores the body;
when the URL path is empty or ends in a slash the resolved file is an
index.html; and the two spec examples resolve as stated for any output
root (not itself empty or slash-terminated). -/
theorem C4_save_path_deterministic :
    (∀ (content : List Nat) (od d u : List Char),
      (save_resource content od d u).1 = save_path od d u) ∧
    (∀ od d u : List Char,
      ((urlparse u []).path = [] ∨ (urlparse u []).path.getLast? = some '/') →
      ∃ pre, save_path od d u = pre ++ ("index.html").toList) ∧
    (∀ od : List Char, od ≠ [] → od.getLast? ≠ some '/' →
      save_path od (("example.com").toList) (("https://example.com/blog/").toList) =
        od ++ ("/example.com/blog/index.html").toList) ∧
    (∀ od : List Char, od ≠ [] → od.getLast? ≠ some '/' →
      save_path od (("example.com").toList) (("https://example.com/").toList) =
        od ++ ("/example.com/index.html").toList) := by
  refine ⟨?_, ?_, ?_, ?_⟩
  · intro c od d u
    simp only [save_resource]
  · intro od d u hcond
    have hlast : (pySplitChar '/'
        (pyStripChar '/' ((urlparse u []).path ++ ("index.html").toList))).getLast? =
        some (("index.html").toList) := by
      unfold pyStripChar
      rw [List.dropWhile_append]
      by_cases he : ((urlparse u []).path.dropWhile (fun c => c = '/')).isEmpty
      · rw [if_pos he]
        rw [show (("index.html").toList.dropWhile (fun c => c = '/')) =
          ("index.html").toList from by decide]
        rw [show (("index.html").toList.reverse.dropWhile (fun c => c = '/')) =
          ("index.html").toList.reverse from by decide]
        rw [List.reverse_reverse]
        rw [pySplitChar_no_sep (by decide)]
        decide
      · rw [if_neg he]
        have hpne : (urlparse u []).path.dropWhile (fun c => c = '/') ≠ [] := by
          simpa [List.isEmpty_iff] using he
        have hplast : ((urlparse u []).path.dropWhile (fun c => c = '/')).getLast? =
            some '/' := by
          rcases hcond with h0 | h0
          · rw [h0] at hpne
            simp at hpne
          · have hdec := List.takeWhile_append_dropWhile
              (p := fun c => c = '/') (l := (urlparse u []).path)
            rw [← hdec] at h0
            rw [List.getLast?_append_of_ne_nil _ hpne] at h0
            exact h0
        obtain ⟨Y, hY⟩ := List.getLast?_eq_some_iff.mp hplast
        rw [List.reverse_append, List.dropWhile_append]
        rw [if_neg (by decide)]
        rw [show (("index.html").toList.reverse.dropWhile (fun c => c = '/')) =
          ("index.html").toList.reverse from by decide]
        rw [← List.reverse_append, List.reverse_reverse]
        rw [hY]
        rw [show (Y ++ ['/']) ++ ("index.html").toList =
          Y ++ '/' :: ("index.html").toList by simp]
        rw [pySplitChar_getLast_append]
        rw [pySplitChar_no_sep (by decide)]
        decide
    unfold save_path
    dsimp only
    rw [if_pos hcond, hlast]
    dsimp only
    unfold pyJoin
    rw [if_neg (by decide)]
    split
    · exact ⟨_, rfl⟩
    · refine ⟨pyJoinList (od :: d :: (pySplitChar '/'
        (pyStripChar '/' ((urlparse u []).path ++ ("index.html").toList))).dropLast) ++ ['/'], ?_⟩
      simp
  · intro od hne hlastod
    unfold save_path
    dsimp only
    rw [show (urlparse (("https://example.com/blog/").toList) []).path =
      ("/blog/").toList from by decide]
    rw [if_pos (by decide)]
    rw [show pySplitChar '/' (pyStripChar '/'
      (("/blog/").toList ++ ("index.html").toList)) =
      [("blog").toList, ("index.html").toList] from by decide]
    dsimp only [List.dropLast, List.getLast?]
    rw [show pyJoinList [od, ("example.com").toList, ("blog").toList] =
      pyJoin (pyJoin od (("example.com").toList)) (("blog").toList) from rfl]
    rw [pyJoin_no_slash (by decide) hne hlastod]
    rw [pyJoin_no_slash (a := od ++ '/' :: ("example.com").toList)
      (b := ("blog").toList) (by decide) (by simp)
      (by rw [List.getLast?_append_cons]; decide)]
    rw [pyJoin_no_slash (by decide) (by simp)
      (by rw [List.getLast?_append_cons]; decide)]
    simp
  · intro od hne hlastod
    unfold save_path
    dsimp only
    rw [show (urlparse (("https://example.com/").toList) []).path =
      ("/").toList from by decide]
    rw [if_pos (by decide)]
    rw [show pySplitChar '/' (pyStripChar '/'
      (("/").toList ++ ("index.html").toList)) =
      [("index.html").toList] from by decide]
    dsimp only [List.dropLast, List.getLast?]
    rw [show pyJoinList [od, ("example.com").toList] =
      pyJoin od (("example.com").toList) from rfl]
    rw [pyJoin_no_slash (by decide) hne hlastod]
    rw [pyJoin_no_slash (by decide) (by simp)
      (by rw [List.getLast?_append_cons]; decide)]
    simp

/-- Witness for C4 with output root out and body bytes [7, 8]. -/
theorem C4_save_path_deterministic_witness :
    (save_resource [7, 8] (("out").toList) (("example.com").toList)
        (("https://example.com/blog/").toList)).1 =
      save_path (("out").toList) (("example.com").toList)
        (("https://example.com/blog/").toList) ∧
    (∃ pre, save_path (("out").toList) (("example.com").toList)
        (("https://example.com/blog/").toList) = pre ++ ("index.html").toList) ∧
    save_path (("out").toList) (("example.com").toList)
        (("https://example.com/blog/").toList) =
      ("out").toList ++ ("/example.com/blog/index.html").toList ∧
    save_path (("out").toList) (("example.com").toList)
        (("https://example.com/").toList) =
      ("out").toList ++ ("/example.com/index.html").toList :=
  ⟨C4_save_path_deterministic.1 [7, 8] (("out").toList) (("example.com").toList)
      (("https://example.com/blog/").toList),
    C4_save_path_deterministic.2.1 (("out").toList) (("example.com").toList)
      (("https://example.com/blog/").toList) (by decide),
    C4_save_path_deterministic.2.2.1 (("out").toList) (by decide) (by decide),
    C4_save_path_deterministic.2.2.2 (("out").toList) (by decide) (by decide)⟩

/-! ## Crawl-loop invariant machinery -/

theorem crawlLoop_pres (ctx : LoopCtx) (P : CrawlState → Prop)
    (hstep : ∀ st, P st → P (loopState (crawlStep ctx st))) :
    ∀ n st, P st → P (loopState (crawlLoop ctx n st)) := by
  intro n
  induction n with
  | zero => intro st h; exact h
  | succ n ih =>
    intro st h
    unfold crawlLoop
    cases hq : st.queue with
    | nil => exact h
    | cons a rest =>
      cases hs : crawlStep ctx st with
      | ok st1 =>
        have h1 := hstep st h
        rw [hs] at h1
        exact ih st1 h1
      | error e =>
        have h1 := hstep st h
        rw [hs] at h1
        exact h1

theorem processLinks_fields (ctx : LoopCtx) (depth : Nat) :
    ∀ links st,
      (loopState (processLinks ctx depth links st)).visited = st.visited ∧
      (loopState (processLinks ctx depth links st)).log = st.log ∧
      (loopState (processLinks ctx depth links st)).savedPaths = st.savedPaths := by
  intro links
  induction links with
  | nil => intro st; exact ⟨rfl, rfl, rfl⟩
  | cons l rest ih =>
    intro st
    unfold processLinks
    cases hn : normalize_link l with
    | error e => exact ⟨rfl, rfl, rfl⟩
    | ok clean =>
      try dsimp only
      cases hv : is_valid clean with
      | error e => exact ⟨rfl, rfl, rfl⟩
      | ok b =>
        try dsimp only
        cases b with
        | false => exact ih st
        | true =>
          cases hsd : should_download clean ctx.base_domain with
          | error e => exact ⟨rfl, rfl, rfl⟩
          | ok b2 =>
            try dsimp only
            cases b2 with
            | false => exact ih st
            | true =>
              by_cases hm : clean ∈ st.visited
              · rw [if_pos hm]
                exact ih st
              · rw [if_neg hm]
                exact ih _

theorem processLinks_enq_mem (ctx : LoopCtx) (depth : Nat) :
    ∀ links st pr, pr ∈ (loopState (processLinks ctx depth links st)).enq →
      pr ∈ st.enq ∨
        ((∃ link, normalize_link link = Except.ok pr.1) ∧ pr.2 = depth + 1) := by
  intro links
  induction links with
  | nil => intro st pr h; exact Or.inl h
  | cons l rest ih =>
    intro st pr h
    unfold processLinks at h
    cases hn : normalize_link l with
    | error e =>
      simp only [hn] at h
      exact Or.inl h
    | ok clean =>
      simp only [hn] at h
      cases hv : is_valid clean with
      | error e =>
        simp only [hv] at h
        exact Or.inl h
      | ok b =>
        simp only [hv] at h
        cases b with
        | false => exact ih st pr h
        | true =>
          cases hsd : should_download clean ctx.base_domain with
          | error e =>
            simp only [hsd] at h
            exact Or.inl h
          | ok b2 =>
            simp only [hsd] at h
            cases b2 with
            | false => exact ih st pr h
            | true =>
              by_cases hm : clean ∈ st.visited
              · rw [if_pos hm] at h
                exact ih st pr h
              · rw [if_neg hm] at h
                rcases ih _ pr h with h1 | h1
                · rcases List.mem_append.mp h1 with h2 | h2
                  · exact Or.inl h2
                  · right
                    rcases List.mem_singleton.mp h2 with rfl
                    exact ⟨⟨l, hn⟩, rfl⟩
                · exact Or.inr h1

theorem crawlStep_log (ctx : LoopCtx) (st : CrawlState) :
    ((loopState (crawlStep ctx st)).log = st.log ∧
      (loopState (crawlStep ctx st)).visited = st.visited) ∨
    (∃ url depth rest, st.queue = (url, depth) :: rest ∧
      (∀ d, ctx.maxd = some d → depth ≤ d) ∧
      ¬ url ∈ st.visited ∧
      (loopState (crawlStep ctx st)).log = st.log ++ [(url, depth)] ∧
      (loopState (crawlStep ctx st)).visited = url :: st.visited) := by
  unfold crawlStep
  cases hq : st.queue with
  | nil => exact Or.inl ⟨rfl, rfl⟩
  | cons a rest =>
    obtain ⟨url, depth⟩ := a
    dsimp only
    have hdepth : ∀ d, ctx.maxd = some d → ¬ d < depth → depth ≤ d := by
      intro d _ h
      omega
    cases hmd : ctx.maxd with
    | some d =>
      dsimp only
      by_cases hlt : d < depth
      · rw [if_pos (by simpa using hlt)]
        exact Or.inl ⟨rfl, rfl⟩
      · rw [if_neg (by simpa using hlt)]
        by_cases hm : url ∈ st.visited
        · rw [if_pos hm]
          exact Or.inl ⟨rfl, rfl⟩
        · rw [if_neg hm]
          refine Or.inr ⟨url, depth, rest, rfl, ?_, hm, ?_⟩
          · intro d' hd'
            have hdd : d' = d := (Option.some_inj.mp hd').symm
            omega
          cases hf : ctx.fetch url with
          | none => exact ⟨rfl, rfl⟩
          | some r =>
            dsimp only
            by_cases hstat : 400 ≤ r.status ∧ r.status < 600
            · rw [if_pos hstat]
              exact ⟨rfl, rfl⟩
            · rw [if_neg hstat]
              cases hsd : should_download r.url ctx.base_domain with
              | error e => exact ⟨rfl, rfl⟩
              | ok b =>
                try dsimp only
                cases b with
                | false => exact ⟨rfl, rfl⟩
                | true =>
                  by_cases hfs : ctx.fsFails
                      (save_path ctx.output_dir ctx.base_domain r.url) = true
                  · rw [if_pos hfs]
                    exact ⟨rfl, rfl⟩
                  · rw [if_neg hfs]
                    have hpl := processLinks_fields ctx depth
                    refine ⟨?_, ?_⟩
                    · rw [(hpl _ _).2.1]
                    · rw [(hpl _ _).1]
    | none =>
      dsimp only
      rw [if_neg (by simp)]
      by_cases hm : url ∈ st.visited
      · rw [if_pos hm]
        exact Or.inl ⟨rfl, rfl⟩
      · rw [if_neg hm]
        refine Or.inr ⟨url, depth, rest, rfl, ?_, hm, ?_⟩
        · intro d' hd'
          exact absurd hd' (by simp)
        cases hf : ctx.fetch url with
        | none => exact ⟨rfl, rfl⟩
        | some r =>
          dsimp only
          by_cases hstat : 400 ≤ r.status ∧ r.status < 600
          · rw [if_pos hstat]
            exact ⟨rfl, rfl⟩
          · rw [if_neg hstat]
            cases hsd : should_download r.url ctx.base_domain with
            | error e => exact ⟨rfl, rfl⟩
            | ok b =>
              try dsimp only
              cases b with
              | false => exact ⟨rfl, rfl⟩
              | true =>
                by_cases hfs : ctx.fsFails
                    (save_path ctx.output_dir ctx.base_domain r.url) = true
                · rw [if_pos hfs]
                  exact ⟨rfl, rfl⟩
                · rw [if_neg hfs]
                  have hpl := processLinks_fields ctx depth
                  refine ⟨?_, ?_⟩
                  · rw [(hpl _ _).2.1]
                  · rw [(hpl _ _).1]

theorem crawlStep_enq_mem (ctx : LoopCtx) (st : CrawlState) :
    ∀ pr ∈ (loopState (crawlStep ctx st)).enq,
      pr ∈ st.enq ∨
        ((∃ link, normalize_link link = Except.ok pr.1) ∧ 1 ≤ pr.2) := by
  have hpl : ∀ depth links st', ∀ pr ∈ (loopState (processLinks ctx depth links st')).enq,
      pr ∈ st'.enq ∨ ((∃ link, normalize_link link = Except.ok pr.1) ∧ 1 ≤ pr.2) := by
    intro depth links st' pr h
    rcases processLinks_enq_mem ctx depth links st' pr h with h1 | h1
    · exact Or.inl h1
    · exact Or.inr ⟨h1.1, by omega⟩
  unfold crawlStep
  cases hq : st.queue with
  | nil => intro pr h; exact Or.inl h
  | cons a rest =>
    obtain ⟨url, depth⟩ := a
    dsimp only
    cases hmd : ctx.maxd <;> dsimp only
    case none =>
      rw [if_neg (by simp)]
      by_cases hm : url ∈ st.visited
      · rw [if_pos hm]
        intro pr h
        exact Or.inl h
      · rw [if_neg hm]
        cases hf : ctx.fetch url with
        | none => intro pr h; exact Or.inl h
        | some r =>
          dsimp only
          by_cases hstat : 400 ≤ r.status ∧ r.status < 600
          · rw [if_pos hstat]
            intro pr h
            exact Or.inl h
          · rw [if_neg hstat]
            cases hsd : should_download r.url ctx.base_domain with
            | error e => intro pr h; exact Or.inl h
            | ok b =>
              try dsimp only
              cases b with
              | false => intro pr h; exact Or.inl h
              | true =>
                by_cases hfs : ctx.fsFails
                    (save_path ctx.output_dir ctx.base_domain r.url) = true
                · rw [if_pos hfs]
                  intro pr h
                  exact Or.inl h
                · rw [if_neg hfs]
                  exact hpl depth _ _
    case some d =>
      by_cases hlt : d < depth
      · rw [if_pos (by simpa using hlt)]
        intro pr h
        exact Or.inl h
      · rw [if_neg (by simpa using hlt)]
        by_cases hm : url ∈ st.visited
        · rw [if_pos hm]
          intro pr h
          exact Or.inl h
        · rw [if_neg hm]
          cases hf : ctx.fetch url with
          | none => intro pr h; exact Or.inl h
          | some r =>
            dsimp only
            by_cases hstat : 400 ≤ r.status ∧ r.status < 600
            · rw [if_pos hstat]
              intro pr h
              exact Or.inl h
            · rw [if_neg hstat]
              cases hsd : should_download r.url ctx.base_domain with
              | error e => intro pr h; exact Or.inl h
              | ok b =>
                try dsimp only
                cases b with
                | false => intro pr h; exact Or.inl h
                | true =>
                  by_cases hfs : ctx.fsFails
                      (save_path ctx.output_dir ctx.base_domain r.url) = true
                  · rw [if_pos hfs]
                    intro pr h
                    exact Or.inl h
                  · rw [if_neg hfs]
                    exact hpl depth _ _

/-- Transfers a crawlStep-preserved invariant to the final state of a
whole crawl invocation. -/
theorem crawl_finalState_pres
    (P : CrawlState → Prop)
    (fetch : List Char → Option Response) (fsFails : List Char → Bool)
    (start od : List Char) (md : Option Int) (fuel : Nat)
    (hstep : ∀ ctx : LoopCtx, ctx.maxd = normMaxDepth md →
      ∀ st, P st → P (loopState (crawlStep ctx st)))
    (hinit : ∀ u, P ⟨[(u, 0)], [], [], [], []⟩) :
    ∀ st, (crawl fetch fsFails start od md fuel).finalState = some st → P st := by
  intro st hst
  unfold crawl at hst
  cases hf : fetch start with
  | none =>
    rw [hf] at hst
    simp at hst
  | some r =>
    rw [hf] at hst
    try dsimp only at hst
    by_cases h200 : r.status ≠ 200
    · rw [if_pos h200] at hst
      simp at hst
    rw [if_neg h200] at hst
    by_cases hok : urlparseOk r.url = true
    swap
    · rw [if_pos hok] at hst
      simp at hst
    rw [if_neg (not_not_intro hok)] at hst
    try dsimp only at hst
    have hP := crawlLoop_pres
      ⟨fetch, fsFails, od, (urlparse r.url []).netloc, normMaxDepth md⟩ P
      (hstep _ rfl) fuel ⟨[(r.url, 0)], [], [], [], []⟩ (hinit r.url)
    cases hl : crawlLoop
        ⟨fetch, fsFails, od, (urlparse r.url []).netloc, normMaxDepth md⟩ fuel
        ⟨[(r.url, 0)], [], [], [], []⟩ with
    | ok s =>
      rw [hl] at hst hP
      simp only [loopState] at hP
      have : s = st := by
        simpa using hst
      rw [← this]
      exact hP
    | error e =>
      obtain ⟨e, s⟩ := e
      rw [hl] at hst hP
      simp only [loopState] at hP
      have : s = st := by
        simpa using hst
      rw [← this]
      exact hP

/-! ## Claims C2 and C5 -/

/-- C2 amended: within the frontier loop each URL is fetched at most
once — the loop's fetch log never repeats a URL, for every fetch
collaborator, filesystem, start URL, output directory, depth limit and
fuel. (The initial redirect-resolving request is issued outside the loop
and may coincide with the first loop fetch; see the counterexample.) -/
theorem C2_loop_fetches_at_most_once
    (fetch : List Char → Option Response) (fsFails : List Char → Bool)
    (start od : List Char) (md : Option Int) (fuel : Nat) :
    (((crawl fetch fsFails start od md fuel).loopLog).map Prod.fst).Nodup := by
  unfold CrawlResult.loopLog
  cases hst : (crawl fetch fsFails start od md fuel).finalState with
  | none => simp
  | some st =>
    have hmain := crawl_finalState_pres
      (fun s => (s.log.map Prod.fst).Nodup ∧
        ∀ u ∈ s.log.map Prod.fst, u ∈ s.visited)
      fetch fsFails start od md fuel ?hstep (fun u => by simp) st hst
    · exact hmain.1
    case hstep =>
      intro ctx _ s hP
      rcases crawlStep_log ctx s with ⟨hlog, hvis⟩ |
        ⟨url, depth, rest, hq, _, hnv, hlog, hvis⟩
      · rw [hlog, hvis]
        exact hP
      · rw [hlog, hvis]
        constructor
        · rw [List.map_append]
          rw [List.nodup_append]
          refine ⟨hP.1, by simp, ?_⟩
          intro a ha hb
          simp only [List.map_cons, List.map_nil, List.mem_singleton] at hb
          rw [hb] at ha
          exact hnv (hP.2 url ha)
        · intro u hu
          rw [List.map_append] at hu
          rcases List.mem_append.mp hu with h1 | h1
          · exact List.mem_cons_of_mem url (hP.2 u h1)
          · simp only [List.map_cons, List.map_nil, List.mem_singleton] at h1
            rw [h1]
            exact List.mem_cons_self url s.visited

/-- C5: with a non-negative max depth d, no frontier entry dequeued at a
depth greater than d is ever fetched — every loop fetch in any run is
logged at depth at most d — and discarding such an entry is the whole
effect of the step: the engine just moves on to the next entry, with no
request attempted and no other state change. -/
theorem C5_depth_bound (d : Nat) :
    (∀ (fetch : List Char → Option Response) (fsFails : List Char → Bool)
        (start od : List Char) (fuel : Nat),
      ∀ pr ∈ (crawl fetch fsFails start od (some (d : Int)) fuel).loopLog,
        pr.2 ≤ d) ∧
    (∀ (ctx : LoopCtx) (st : CrawlState) url depth rest,
      ctx.maxd = some d → st.queue = (url, depth) :: rest → d < depth →
      crawlStep ctx st = .ok { st with queue := rest }) := by
  constructor
  · intro fetch fsFails start od fuel pr hpr
    have hnorm : normMaxDepth (some (d : Int)) = some d := by
      simp [normMaxDepth]
    revert hpr
    unfold CrawlResult.loopLog
    cases hst : (crawl fetch fsFails start od (some (d : Int)) fuel).finalState with
    | none => simp
    | some st =>
      intro hpr
      have hmain := crawl_finalState_pres
        (fun s => ∀ pr ∈ s.log, pr.2 ≤ d)
        fetch fsFails start od (some (d : Int)) fuel ?hstep (fun u => by simp)
        st hst
      · exact hmain pr hpr
      case hstep =>
        intro ctx hmd s hP
        rcases crawlStep_log ctx s with ⟨hlog, _⟩ |
          ⟨url, depth, rest, hq, hdep, hnv, hlog, _⟩
        · rw [hlog]
          exact hP
        · rw [hlog]
          intro pr' hpr'
          rcases List.mem_append.mp hpr' with h1 | h1
          · exact hP pr' h1
          · rcases List.mem_singleton.mp h1 with rfl
            exact hdep d (by rw [hmd, hnorm])
  · intro ctx st url depth rest hmd hq hlt
    unfold crawlStep
    rw [hq, hmd]
    dsimp only
    rw [if_pos (decide_eq_true hlt)]

/-- Witness for C5 at d = 0: a crawl whose start page links one level
deeper fetches only the depth-0 entry, and a step on a depth-1 entry with
max depth 0 just discards it. -/
theorem C5_depth_bound_witness :
    (∀ pr ∈ (crawl
        (fun u => if u = ("http://e.com/").toList then
          some ⟨200, ("http://e.com/").toList, ("text/html").toList,
            [⟨("a").toList, [(("href").toList, ("x.html").toList)]⟩], [], []⟩
          else none)
        (fun _ => false) (("http://e.com/").toList) (("out").toList)
        (some (0 : Int)) 10).loopLog, pr.2 ≤ 0) ∧
    crawlStep ⟨(fun _ => none), (fun _ => false), ("out").toList, [], some 0⟩
        ⟨[(("http://e.com/x.html").toList, 1)], [], [], [], []⟩ =
      .ok ⟨[], [], [], [], []⟩ :=
  ⟨(C5_depth_bound 0).1 _ _ _ _ 10,
    (C5_depth_bound 0).2 _ _ (("http://e.com/x.html").toList) 1 [] rfl rfl
      (by decide)⟩

/-! ## Claim C10 -/

theorem mem_hashSplit {v : List Char} {c : Char}
    (h : c ∈ (if '#' ∈ v then splitOnFirst '#' v else (v, [])).1) :
    c ∈ v ∧ c ≠ '#' := by
  split at h
  · exact mem_splitOnFirst_fst h
  · rename_i hnot
    exact ⟨h, fun hc => hnot (hc ▸ h)⟩

theorem mem_qmarkSplit {v : List Char} {c : Char}
    (h : c ∈ (if '?' ∈ v then splitOnFirst '?' v else (v, [])).1) :
    c ∈ v ∧ c ≠ '?' := by
  split at h
  · exact mem_splitOnFirst_fst h
  · rename_i hnot
    exact ⟨h, fun hc => hnot (hc ▸ h)⟩

theorem mem_paramsSplit_fst {v : List Char} {c : Char}
    (h : c ∈ (if ';' ∈ v then splitparams v else (v, [])).1) : c ∈ v := by
  split at h
  · exact mem_splitparams_fst h
  · exact h

theorem mem_paramsSplit_snd {v : List Char} {c : Char}
    (h : c ∈ (if ';' ∈ v then splitparams v else (v, [])).2) : c ∈ v := by
  split at h
  · exact mem_splitparams_snd h
  · simp at h

/-- Neither the path nor the params component of a parse can contain a
hash or a question mark: both splits happen first. -/
theorem urlparse_path_params_no_qf (u d : List Char) :
    ∀ c, (c ∈ (urlparse u d).path ∨ c ∈ (urlparse u d).params) →
      c ≠ '#' ∧ c ≠ '?' := by
  intro c hc
  have hc1 : c ∈ (if '?' ∈ (if '#' ∈ (splitnetloc (schemeSplit
      ((pyStripWs d).filter (fun c => ¬ (c = '\t' ∨ c = '\r' ∨ c = '\n')))
      (cleanUrl u)).2).2 then splitOnFirst '#' (splitnetloc (schemeSplit
      ((pyStripWs d).filter (fun c => ¬ (c = '\t' ∨ c = '\r' ∨ c = '\n')))
      (cleanUrl u)).2).2 else ((splitnetloc (schemeSplit
      ((pyStripWs d).filter (fun c => ¬ (c = '\t' ∨ c = '\r' ∨ c = '\n')))
      (cleanUrl u)).2).2, [])).1 then splitOnFirst '?' (if '#' ∈ (splitnetloc
      (schemeSplit ((pyStripWs d).filter
      (fun c => ¬ (c = '\t' ∨ c = '\r' ∨ c = '\n'))) (cleanUrl u)).2).2 then
      splitOnFirst '#' (splitnetloc (schemeSplit ((pyStripWs d).filter
      (fun c => ¬ (c = '\t' ∨ c = '\r' ∨ c = '\n'))) (cleanUrl u)).2).2 else
      ((splitnetloc (schemeSplit ((pyStripWs d).filter
      (fun c => ¬ (c = '\t' ∨ c = '\r' ∨ c = '\n'))) (cleanUrl u)).2).2, [])).1
      else ((if '#' ∈ (splitnetloc (schemeSplit ((pyStripWs d).filter
      (fun c => ¬ (c = '\t' ∨ c = '\r' ∨ c = '\n'))) (cleanUrl u)).2).2 then
      splitOnFirst '#' (splitnetloc (schemeSplit ((pyStripWs d).filter
      (fun c => ¬ (c = '\t' ∨ c = '\r' ∨ c = '\n'))) (cleanUrl u)).2).2 else
      ((splitnetloc (schemeSplit ((pyStripWs d).filter
      (fun c => ¬ (c = '\t' ∨ c = '\r' ∨ c = '\n'))) (cleanUrl u)).2).2,
      [])).1, [])).1 := by
    rcases hc with hc | hc
    · exact mem_paramsSplit_fst (by simpa [urlparse] using hc)
    · exact mem_paramsSplit_snd (by simpa [urlparse] using hc)
  have hc2 := mem_qmarkSplit hc1
  have hc3 := mem_hashSplit hc2.1
  exact ⟨hc3.2, hc2.2⟩

set_option maxHeartbeats 800000 in
/-- The serialization of a parse result with cleared query and fragment
contains no hash and no question mark. -/
theorem unparse_clean_no_qf (link : List Char) :
    ∀ x, x = '#' ∨ x = '?' →
      ¬ x ∈ urlunparse ⟨(urlparse link []).scheme, (urlparse link []).netloc,
        (urlparse link []).path, (urlparse link []).params, [], []⟩ := by
  intro x hx hmem
  have hnp := urlparse_path_params_no_qf link []
  have hns := urlparse_scheme_chars link
  have hnn := urlparse_netloc_chars link []
  have hxd : x ≠ ':' ∧ x ≠ '/' ∧ x ≠ ';' ∧ x ∈ delimsNetloc := by
    rcases hx with rfl | rfl
    · exact ⟨by decide, by decide, by decide, by decide⟩
    · exact ⟨by decide, by decide, by decide, by decide⟩
  have hxpp : ∀ y, (y ∈ (urlparse link []).path ∨ y ∈ (urlparse link []).params) →
      y ≠ x := by
    intro y hy
    rcases hnp y hy with ⟨h1, h2⟩
    rcases hx with rfl | rfl
    · exact h1
    · exact h2
  unfold urlunparse at hmem
  dsimp only at hmem
  rw [if_neg (by simp)] at hmem
  rw [if_neg (by simp)] at hmem
  set U := (if (urlparse link []).params ≠ [] then
    (urlparse link []).path ++ ';' :: (urlparse link []).params
    else (urlparse link []).path) with hU
  have hu1 : ¬ x ∈ U := by
    rw [hU]
    split
    · intro hm
      rcases List.mem_append.mp hm with h1 | h1
      · exact hxpp x (Or.inl h1) rfl
      · rcases List.mem_cons.mp h1 with h2 | h2
        · exact hxd.2.2.1 h2
        · exact hxpp x (Or.inr h2) rfl
    · intro hm
      exact hxpp x (Or.inl hm) rfl
  have hu2 : ¬ x ∈ (if (urlparse link []).netloc ≠ [] ∨ U.take 2 = ['/', '/'] then
      '/' :: '/' :: (urlparse link []).netloc ++
        (if U ≠ [] ∧ U.head? ≠ some '/' then '/' :: U else U)
      else U) := by
    split
    · intro hm
      rcases List.mem_cons.mp hm with h1 | h1
      · exact hxd.2.1 h1
      rcases List.mem_cons.mp h1 with h2 | h2
      · exact hxd.2.1 h2
      rcases List.mem_append.mp h2 with h3 | h3
      · exact (hnn x h3).1 hxd.2.2.2
      · split at h3
        · rcases List.mem_cons.mp h3 with h4 | h4
          · exact hxd.2.1 h4
          · exact hu1 h4
        · exact hu1 h3
    · exact hu1
  split at hmem
  · rcases List.mem_append.mp hmem with h1 | h1
    · rcases hns x h1 with ⟨h2, h3⟩
      rcases hx with rfl | rfl
      · exact h2 rfl
      · exact h3 rfl
    · rcases List.mem_cons.mp h1 with h2 | h2
      · exact hxd.1 h2
      · exact hu2 h2
  · exact hu2 hmem

theorem parse_no_hash_fragment {s : List Char} (h : ¬ '#' ∈ s) (d : List Char) :
    (urlparse s d).fragment = [] := by
  have hsub : ∀ c, c ∈ (splitnetloc (schemeSplit
      ((pyStripWs d).filter (fun c => ¬ (c = '\t' ∨ c = '\r' ∨ c = '\n')))
      (cleanUrl s)).2).2 → c ∈ s := by
    intro c hc
    exact (mem_cleanUrl (mem_schemeSplit_snd (mem_splitnetloc_snd hc))).1
  simp only [urlparse]
  rw [if_neg (fun hc => h (hsub '#' hc))]

theorem parse_no_qmark_query {s : List Char} (h : ¬ '?' ∈ s) (d : List Char) :
    (urlparse s d).query = [] := by
  have hsub : ∀ c, c ∈ (splitnetloc (schemeSplit
      ((pyStripWs d).filter (fun c => ¬ (c = '\t' ∨ c = '\r' ∨ c = '\n')))
      (cleanUrl s)).2).2 → c ∈ s := by
    intro c hc
    exact (mem_cleanUrl (mem_schemeSplit_snd (mem_splitnetloc_snd hc))).1
  simp only [urlparse]
  rw [if_neg ?hq]
  case hq =>
    intro hc
    exact h (hsub '?' (mem_hashSplit hc).1)

/-- Whatever normalize_link returns re-parses with empty query and empty
fragment. -/
theorem normalize_output_no_qf (link : List Char) :
    ∀ clean, normalize_link link = .ok clean →
      (urlparse clean []).query = [] ∧ (urlparse clean []).fragment = [] := by
  intro clean hc
  unfold normalize_link at hc
  split at hc
  · exact absurd hc (by simp)
  · simp only [Except.ok.injEq] at hc
    rw [← hc]
    exact ⟨parse_no_qmark_query (unparse_clean_no_qf link '?' (Or.inr rfl)) [],
      parse_no_hash_fragment (unparse_clean_no_qf link '#' (Or.inl rfl)) []⟩

/-- C10: every frontier entry created by the link-processing step has an
empty query and fragment after re-parsing and sits at depth at least 1,
in every run; the initial entry, by contrast, is the post-redirect start
URL enqueued without normalization, so a query-carrying start URL is
fetched and saved with its query string intact. -/
theorem C10_enqueued_links_clean :
    (∀ (fetch : List Char → Option Response) (fsFails : List Char → Bool)
        (start od : List Char) (md : Option Int) (fuel : Nat),
      ∀ pr ∈ (crawl fetch fsFails start od md fuel).enqLog,
        (urlparse pr.1 []).query = [] ∧ (urlparse pr.1 []).fragment = [] ∧
          1 ≤ pr.2) ∧
    ((("http://e.com/?q=1").toList, 0) ∈ crawlFixtureQuery.loopLog ∧
      (urlparse (("http://e.com/?q=1").toList) []).query = ("q=1").toList ∧
      crawlFixtureQuery.savedLog =
        [("out/e.com/index.html").toList, ("out/e.com/x.html").toList] ∧
      (("http://e.com/x.html").toList, 1) ∈ crawlFixtureQuery.enqLog) := by
  constructor
  · intro fetch fsFails start od md fuel pr hpr
    revert hpr
    unfold CrawlResult.enqLog
    cases hst : (crawl fetch fsFails start od md fuel).finalState with
    | none => simp
    | some st =>
      intro hpr
      have hmain := crawl_finalState_pres
        (fun s => ∀ pr ∈ s.enq,
          (urlparse pr.1 []).query = [] ∧ (urlparse pr.1 []).fragment = [] ∧
            1 ≤ pr.2)
        fetch fsFails start od md fuel ?hstep (fun u => by simp) st hst
      · exact hmain pr hpr
      case hstep =>
        intro ctx _ s hP pr' hpr'
        rcases crawlStep_enq_mem ctx s pr' hpr' with h1 | ⟨⟨link, hok⟩, h2⟩
        · exact hP pr' h1
        · have := normalize_output_no_qf link pr'.1 hok
          exact ⟨this.1, this.2, h2⟩
  · exact ⟨by decide, by decide, by decide, by decide⟩

/-- Witness for C10 at a concrete enqueued frontier entry. -/
theorem C10_enqueued_links_clean_witness :
    (urlparse (("http://e.com/x.html").toList) []).query = [] ∧
    (urlparse (("http://e.com/x.html").toList) []).fragment = [] ∧
    1 ≤ 1 :=
  C10_enqueued_links_clean.1 fetchFixtureQuery (fun _ => false)
    (("http://e.com/?q=1").toList) (("out").toList) none 10
    ((("http://e.com/x.html").toList), 1) (by decide)

/-- Counterexample to C2 as stated: with a fetch collaborator that never
redirects, the initial redirect-resolving request and the first frontier
fetch hit the same URL, so the run's complete request log repeats a URL.
The log is exactly [start, start]. -/
theorem C2_initial_fetch_repeated_cex :
    (crawl (fun u => some ⟨200, u, ("text/html").toList, [], [], []⟩)
        (fun _ => false) (("http://e.com/").toList) (("out").toList) none
        10).allGets =
      [("http://e.com/").toList, ("http://e.com/").toList] ∧
    ¬ ((crawl (fun u => some ⟨200, u, ("text/html").toList, [], [], []⟩)
        (fun _ => false) (("http://e.com/").toList) (("out").toList) none
        10).allGets).Nodup := by
  constructor
  · decide
  · decide

/-! ## Claim C1 -/

/-- C1 (code bug): a filesystem error while saving a.html is NOT
recoverable in the code. The exception from save_resource escapes the
frontier loop to the top-level handler: the crawl exits with code 1
having fetched only the start page and a.html, nothing is extracted from
a.html's in-memory body, and the already-enqueued b.html is never
fetched — while the same crawl on a healthy filesystem fetches all three
resources and exits 0. The claim (and spec) say the failure should skip
only that resource's save and the crawl should continue. -/
theorem C1_save_failure_aborts_crawl :
    crawlFixtureSaveFail.exit = 1 ∧
    crawlFixtureSaveFail.loopLog =
      [(("http://e.com/").toList, 0), (("http://e.com/a.html").toList, 1)] ∧
    (("http://e.com/b.html").toList, 1) ∈ crawlFixtureSaveFail.enqLog ∧
    ¬ ("http://e.com/b.html").toList ∈ crawlFixtureSaveFail.loopLog.map Prod.fst ∧
    crawlFixtureSaveFail.savedLog = [("out/e.com/index.html").toList] ∧
    crawlFixtureSaveOk.exit = 0 ∧
    crawlFixtureSaveOk.loopLog.map Prod.fst =
      [("http://e.com/").toList, ("http://e.com/a.html").toList,
        ("http://e.com/b.html").toList] := by
  refine ⟨by decide, by decide, by decide, by decide, by decide, by decide,
    by decide⟩

/-! ## Claims C6, C7, C9 -/


/-! ## Claims C6, C7, C9 -/

theorem exc_bind_ok {ε α β : Type} (a : α) (f : α → Except ε β) :
    (Except.ok a >>= f) = f a := rfl

theorem exc_bind_err {ε α β : Type} (e : ε) (f : α → Except ε β) :
    ((Except.error e : Except ε α) >>= f) = Except.error e := rfl

theorem extract_img_srcset (c : Char) (cs : List Char) :
    ∀ r, srcsetTokens (c :: cs) = r →
      tagRawLinks [⟨("img").toList, [(("srcset").toList, c :: cs)]⟩]
        (("img").toList, .multi [("src").toList, ("srcset").toList]) =
        (r >>= fun ts => Except.ok ts) := by
  intro r hr
  unfold tagRawLinks elementRawLinks getAttr
  rw [show ([⟨("img").toList, [(("srcset").toList, c :: cs)]⟩] :
    List HTag).filter (fun e => e.name = (("img").toList, AttrSpec.multi
      [("src").toList, ("srcset").toList]).1) =
    [⟨("img").toList, [(("srcset").toList, c :: cs)]⟩] from rfl]
  simp only [List.foldlM_cons, List.foldlM_nil]
  rw [show (([(("srcset").toList, c :: cs)] :
      List (List Char × List Char)).find? (fun p => p.1 = ("srcset").toList)).map
      (fun p => p.2) = some (c :: cs) from rfl]
  rw [show (([(("srcset").toList, c :: cs)] :
      List (List Char × List Char)).find? (fun p => p.1 = ("src").toList)).map
      (fun p => p.2) = none from rfl]
  dsimp only
  simp only [exc_bind_ok]
  rw [if_neg (by simp : ¬ (c :: cs) = [])]
  rw [hr]
  cases r with
  | ok ts => rfl
  | error e => rfl

theorem exc_pure {ε α : Type} (a : α) : (pure a : Except ε α) = Except.ok a := rfl

theorem mapM_ok_length {base : List Char} :
    ∀ (l o : List (List Char)), l.mapM (urljoin base) = .ok o →
      o.length = l.length := by
  intro l
  induction l with
  | nil =>
    intro o ho
    rw [show (([] : List (List Char)).mapM (urljoin base)) =
      .ok ([] : List (List Char)) from rfl] at ho
    simp only [Except.ok.injEq] at ho
    rw [← ho]
  | cons x xs ih =>
    intro o ho
    rw [List.mapM_cons] at ho
    cases hx : urljoin base x with
    | error e =>
      rw [hx] at ho
      simp only [exc_bind_err] at ho
      simp at ho
    | ok y =>
      rw [hx] at ho
      simp only [exc_bind_ok] at ho
      cases hxs : xs.mapM (urljoin base) with
      | error e =>
        rw [hxs] at ho
        simp only [exc_bind_err] at ho
        simp at ho
      | ok ys =>
        rw [hxs] at ho
        simp only [exc_bind_ok, exc_pure, Except.ok.injEq] at ho
        rw [← ho]
        simp [ih ys hxs]

/-- C6: extract_html_links treats a srcset value as comma-separated
candidate descriptors and extracts each candidate's first whitespace-free
token individually, resolving each against the base URL: for any
non-failing srcset value the result is exactly the per-candidate
resolution, with one link per candidate.  The two-candidate example of
the spec and a three-candidate srcset are evaluated below. -/
theorem C6_srcset_splitting :
    (∀ (base v : List Char) (cands out : List (List Char)),
      srcsetTokens v = .ok cands →
      cands.mapM (urljoin base) = .ok out →
      extract_html_links [⟨("img").toList, [(("srcset").toList, v)]⟩] base =
          .ok out ∧
        out.length = cands.length) ∧
    extract_html_links
        [⟨("img").toList, [(("srcset").toList, ("a.png 1x, b.png 2x").toList)]⟩]
        (("http://example.com/dir/page.html").toList) =
      .ok [("http://example.com/dir/a.png").toList,
        ("http://example.com/dir/b.png").toList] ∧
    (extract_html_links
        [⟨("img").toList, [(("srcset").toList, ("one, two, three 3x").toList)]⟩]
        (("http://example.com/").toList) =
      .ok [("http://example.com/one").toList, ("http://example.com/two").toList,
        ("http://example.com/three").toList] ∧
      srcsetTokens (("one, two, three 3x").toList) =
        .ok [("one").toList, ("two").toList, ("three").toList]) := by
  refine ⟨?_, by decide, by decide, by decide⟩
  intro base v cands out h1 h2
  rcases v with _ | ⟨c, cs⟩
  · rw [show srcsetTokens ([] : List Char) =
      Except.error PyErr.indexError from rfl] at h1
    exact absurd h1 (by simp)
  refine ⟨?_, mapM_ok_length cands out h2⟩
  unfold extract_html_links tagsSpec
  simp only [List.foldlM_cons, List.foldlM_nil]
  rw [show tagRawLinks [⟨("img").toList, [(("srcset").toList, c :: cs)]⟩]
    (("a").toList, AttrSpec.single (("href").toList)) = .ok [] from rfl]
  simp only [exc_bind_ok]
  rw [show tagRawLinks [⟨("img").toList, [(("srcset").toList, c :: cs)]⟩]
    (("link").toList, AttrSpec.single (("href").toList)) = .ok [] from rfl]
  simp only [exc_bind_ok]
  rw [extract_img_srcset c cs _ h1]
  simp only [exc_bind_ok]
  rw [show tagRawLinks [⟨("img").toList, [(("srcset").toList, c :: cs)]⟩]
    (("script").toList, AttrSpec.single (("src").toList)) = .ok [] from rfl]
  simp only [exc_bind_ok]
  rw [show tagRawLinks [⟨("img").toList, [(("srcset").toList, c :: cs)]⟩]
    (("source").toList, AttrSpec.multi [("src").toList, ("srcset").toList]) =
    .ok [] from rfl]
  simp only [exc_bind_ok, exc_pure]
  simp only [List.append_nil, List.nil_append]
  exact h2

/-- C7 amended: the order of the links returned by extract_html_links is
deterministic but is NOT document order across tag kinds: the function
processes the tags dictionary kind by kind (a, link, img, script,
source), in document order only within each kind, so the result is
exactly the concatenation of the per-kind extractions in that fixed
order. -/
theorem C7_links_grouped_by_tag :
    ∀ (soup : List HTag) (base : List Char),
    extract_html_links soup base = extractGroupedSpec soup base := by
  intro soup base
  unfold extract_html_links extractGroupedSpec tagsSpec
  simp only [List.foldlM_cons, List.foldlM_nil]
  cases h1 : tagRawLinks soup (("a").toList, AttrSpec.single (("href").toList)) with
  | error e => rfl
  | ok l1 =>
    simp only [exc_bind_ok]
    cases h2 : tagRawLinks soup (("link").toList, AttrSpec.single (("href").toList)) with
    | error e => rfl
    | ok l2 =>
      simp only [exc_bind_ok]
      cases h3 : tagRawLinks soup
          (("img").toList, AttrSpec.multi [("src").toList, ("srcset").toList]) with
      | error e => rfl
      | ok l3 =>
        simp only [exc_bind_ok]
        cases h4 : tagRawLinks soup
            (("script").toList, AttrSpec.single (("src").toList)) with
        | error e => rfl
        | ok l4 =>
          simp only [exc_bind_ok]
          cases h5 : tagRawLinks soup
              (("source").toList, AttrSpec.multi [("src").toList, ("srcset").toList]) with
          | error e => rfl
          | ok l5 =>
            simp only [exc_bind_ok, exc_pure]
            simp only [List.nil_append, List.append_assoc]


/-- Witness for the general part of C6 at the spec's two-candidate
srcset. -/
theorem C6_srcset_splitting_witness :
    srcsetTokens (("a.png 1x, b.png 2x").toList) =
      .ok [("a.png").toList, ("b.png").toList] ∧
    ([("a.png").toList, ("b.png").toList].mapM
        (urljoin (("http://example.com/dir/page.html").toList)) =
      .ok [("http://example.com/dir/a.png").toList,
        ("http://example.com/dir/b.png").toList]) ∧
    (extract_html_links
        [⟨("img").toList, [(("srcset").toList, ("a.png 1x, b.png 2x").toList)]⟩]
        (("http://example.com/dir/page.html").toList) =
      .ok [("http://example.com/dir/a.png").toList,
        ("http://example.com/dir/b.png").toList] ∧
      ([("http://example.com/dir/a.png").toList,
        ("http://example.com/dir/b.png").toList] :
          List (List Char)).length =
        ([("a.png").toList, ("b.png").toList] : List (List Char)).length) :=
  ⟨by decide, by decide,
    C6_srcset_splitting.1 (("http://example.com/dir/page.html").toList)
      (("a.png 1x, b.png 2x").toList)
      [("a.png").toList, ("b.png").toList]
      [("http://example.com/dir/a.png").toList,
        ("http://example.com/dir/b.png").toList]
      (by decide) (by decide)⟩

/-- Counterexample to C7 as stated: in a document whose img element
precedes its a element, the two extracted links come out in the opposite
order, a-link first, because extraction iterates the tags dictionary by
kind rather than walking the document. -/
theorem C7_document_order_cex :
    extract_html_links
        [⟨("img").toList, [(("src").toList, ("1.png").toList)]⟩,
          ⟨("a").toList, [(("href").toList, ("2.html").toList)]⟩]
        (("http://e.com/").toList) =
      .ok [("http://e.com/2.html").toList, ("http://e.com/1.png").toList] ∧
    ¬ ("http://e.com/2.html").toList = ("http://e.com/1.png").toList := by
  exact ⟨by decide, by decide⟩

/-- C9: an img or source element whose comma-separated src or srcset list
contains an empty candidate makes extract_html_links raise IndexError,
for every base URL; the engine catches the exception, the page
contributes an empty link list, and even the candidate extracted
successfully before the failure (a.png) is discarded: the crawl saves the
page, enqueues nothing, and terminates normally with exit code 0. -/
theorem C9_trailing_comma_raises :
    (∀ base : List Char, extract_html_links
        [⟨("img").toList, [(("srcset").toList, ("a.png 1x,").toList)]⟩] base =
      .error .indexError) ∧
    (∀ base : List Char, extract_html_links
        [⟨("source").toList, [(("src").toList, (",").toList)]⟩] base =
      .error .indexError) ∧
    firstTok (("a.png 1x").toList) = .ok (("a.png").toList) ∧
    crawlFixtureSrcset.exit = 0 ∧
    crawlFixtureSrcset.loopLog = [(("http://e.com/").toList, 0)] ∧
    crawlFixtureSrcset.enqLog = [] ∧
    crawlFixtureSrcset.savedLog = [("out/e.com/index.html").toList] :=
  ⟨fun _ => rfl, fun _ => rfl, by decide, by decide, by decide, by decide,
    by decide⟩
